import Mathlib

/-!
Shallow embedding of the core of the `wa_llm` WhatsApp-assistant repository,
with theorems checking the natural-language specification against it.

Python strings are modelled as `List Char` (named `PyStr`); Python string
operations (`split`, `find`, slicing, `int(...)`, truthiness) are given
faithful recursive models below.  Fallible Python code (functions that raise)
is modelled with `Except`.  The database is modelled as explicit lists of
rows, and the PostgreSQL `INSERT .. ON CONFLICT DO UPDATE` statement as a
pure function on such lists.

Source files embedded here:
  * `src/whatsapp/jid.py`           (JID grammar, parsing, normalization)
  * `src/models/upsert.py`          (generic single-statement upsert)
  * `src/models/message.py`         (webhook -> Message construction)
  * `src/handler/base_handler.py`   (ingestion inside one nested transaction)
  * `src/models/group.py`           (community-key scoped related groups)
  * `src/handler/knowledge_base_answers.py` (scoped retrieval, retry policy)
-/

set_option maxRecDepth 10000

/-- Decidable equality of `Except` results, used to evaluate the embedded
parsers on concrete inputs. -/
instance {ε α : Type} [DecidableEq ε] [DecidableEq α] : DecidableEq (Except ε α) := fun x y =>
  match x, y with
  | Except.ok a, Except.ok b =>
    if h : a = b then isTrue (by rw [h]) else isFalse (by simp [h])
  | Except.error a, Except.error b =>
    if h : a = b then isTrue (by rw [h]) else isFalse (by simp [h])
  | Except.ok _, Except.error _ => isFalse (by simp)
  | Except.error _, Except.ok _ => isFalse (by simp)

/-- Python strings, modelled as lists of characters. -/
abbrev PyStr := List Char

namespace WaLLM

/-! ## Python string primitives -/

/-- Python truthiness of an optional string: `None` and `""` are falsy. -/
def truthy : Option PyStr → Bool
  | none => false
  | some s => !s.isEmpty

/-- Python `str.find(c)` for a single-character needle: index of the first
occurrence, `none` standing for Python's `-1`. -/
def pyFind (c : Char) : PyStr → Option Nat
  | [] => none
  | x :: xs => if x = c then some 0 else (pyFind c xs).map (· + 1)

/-- Python `str.split(c)` for a single-character separator: splits at every
occurrence, keeping empty pieces, and never returns an empty list. -/
def splitOnChar (c : Char) : PyStr → List PyStr
  | [] => [[]]
  | x :: xs =>
    let rest := splitOnChar c xs
    if x = c then [] :: rest
    else
      match rest with
      | [] => [[x]]
      | y :: ys => (x :: y) :: ys

/-- `sep` occurs at the start of `l` (`l.take sep.length = sep`). -/
def startsWithSeq (sep l : PyStr) : Bool := decide (l.take sep.length = sep)

/-- Python `sep in s` for a multi-character separator. -/
def containsSeq (sep l : PyStr) : Bool :=
  (List.range (l.length + 1)).any fun i => startsWithSeq sep (l.drop i)

/-- Python `str.split(sep)` for a non-empty multi-character separator,
written with an explicit fuel so that it reduces structurally; with
`fuel ≥ l.length + 1` (as supplied by `pySplitSeq`) the fuel never runs
out, because each step consumes at least one character. -/
def pySplitSeqAux (sep : PyStr) : Nat → PyStr → List PyStr
  | 0, l => [l]
  | _ + 1, [] => [[]]
  | fuel + 1, x :: xs =>
    if !sep.isEmpty && startsWithSeq sep (x :: xs) then
      [] :: pySplitSeqAux sep fuel ((x :: xs).drop sep.length)
    else
      match pySplitSeqAux sep fuel xs with
      | [] => [[x]]
      | y :: ys => (x :: y) :: ys

/-- Python `str.split(sep)` for a non-empty multi-character separator. -/
def pySplitSeq (sep l : PyStr) : List PyStr := pySplitSeqAux sep (l.length + 1) l

/-- Python `str.isnumeric()` (restricted to ASCII digits): non-empty and all
characters are digits. -/
def pyIsNumeric (l : PyStr) : Bool := !l.isEmpty && l.all Char.isDigit

/-- Numeric value of a non-empty all-digit string. -/
def digitsVal (l : PyStr) : Nat := l.foldl (fun a c => a * 10 + (c.toNat - 48)) 0

/-- Python `int(str)`: surrounding whitespace is stripped, one optional sign
is allowed, then a non-empty run of digits.  (Underscore digit grouping is
not modelled.)  `none` stands for a raised `ValueError`. -/
def pyInt? (s : PyStr) : Option Int :=
  let t := (s.dropWhile Char.isWhitespace).reverse.dropWhile Char.isWhitespace |>.reverse
  match t with
  | '-' :: rest => if pyIsNumeric rest then some (-(digitsVal rest : Int)) else none
  | '+' :: rest => if pyIsNumeric rest then some ((digitsVal rest : Int)) else none
  | _ => if pyIsNumeric t then some ((digitsVal t : Int)) else none

/-! ## `src/whatsapp/jid.py` : the JID data type and its grammar -/

/-- `JID` dataclass from `src/whatsapp/jid.py`. -/
structure JID where
  user : PyStr
  agent : Nat := 0
  device : Nat := 0
  server : PyStr := []
  ad : Bool := false
deriving DecidableEq, Repr

/-- `DefaultUserServer = "s.whatsapp.net"`. -/
def DefaultUserServer : PyStr := "s.whatsapp.net".toList

/-- `GroupServer = "g.us"`. -/
def GroupServer : PyStr := "g.us".toList

/-- `BroadcastServer = "broadcast"`. -/
def BroadcastServer : PyStr := "broadcast".toList

/-- `JID.to_non_ad`: drop agent/device (and force the default user server)
when in ad notation; otherwise the JID is returned unchanged. -/
def JID.to_non_ad (j : JID) : JID :=
  if j.ad then { user := j.user, server := DefaultUserServer } else j

/-- `JID.is_group`: the server is the group server. -/
def JID.is_group (j : JID) : Bool := j.server = GroupServer

/-- `JID.is_broadcast_list`: broadcast server and not the status user. -/
def JID.is_broadcast_list (j : JID) : Bool :=
  j.server = BroadcastServer && j.user ≠ "status".toList

/-- `JID.__str__`: `user.agent:device@server` in ad notation, `user@server`
when the user part is non-empty, and the bare server otherwise. -/
def JID.str (j : JID) : PyStr :=
  if j.ad then
    j.user ++ '.' :: (Nat.toDigits 10 j.agent) ++ ':' :: (Nat.toDigits 10 j.device)
      ++ '@' :: j.server
  else if j.user.length > 0 then j.user ++ '@' :: j.server
  else j.server

/-- `new_jid(user, server)`. -/
def new_jid (user server : PyStr) : JID := { user := user, server := server }

/-- `parse_ad_jid(user)` from `src/whatsapp/jid.py` lines 54-76: parse the
`user.agent:device` extended notation; errors model raised `JIDParseError`. -/
def parse_ad_jid (user : PyStr) : Except String JID :=
  match pyFind '.' user, pyFind ':' user with
  | some dotIdx, some colonIdx =>
    if colonIdx + 1 ≤ dotIdx then
      Except.error "failed to parse ADJID: missing separators"
    else
      let u := user.take dotIdx
      let agentStr := (user.drop (dotIdx + 1)).take (colonIdx - (dotIdx + 1))
      let deviceStr := user.drop (colonIdx + 1)
      match pyInt? agentStr with
      | none => Except.error "failed to parse agent/device from JID"
      | some a =>
        if a < 0 ∨ 255 < a then Except.error "failed to parse agent/device from JID"
        else
          match pyInt? deviceStr with
          | none => Except.error "failed to parse agent/device from JID"
          | some d =>
            if d < 0 ∨ 255 < d then Except.error "failed to parse agent/device from JID"
            else Except.ok { user := u, agent := a.toNat, device := d.toNat,
                             server := DefaultUserServer, ad := true }
  | _, _ => Except.error "failed to parse ADJID: missing separators"

/-- `parse_jid(jid)` from `src/whatsapp/jid.py` lines 79-91. -/
def parse_jid (jid : PyStr) : Except String JID :=
  match splitOnChar '@' jid with
  | [p] =>
    if pyIsNumeric p then Except.ok (new_jid p DefaultUserServer)
    else Except.error "failed to parse JID: missing separator"
  | p0 :: p1 :: _ =>
    if ':' ∈ p0 then
      if p1 = DefaultUserServer then
        if '.' ∈ p0 then parse_ad_jid p0
        else Except.ok (new_jid ((splitOnChar ':' p0).headD []) p1)
      else Except.ok (new_jid p0 p1)
    else Except.ok (new_jid p0 p1)
  | [] => Except.error "unreachable: str.split never returns an empty list"

/-- `normalize_jid` applied to an already-parsed `JID` value. -/
def normalizeJID (j : JID) : PyStr := j.to_non_ad.str

/-- `normalize_jid` applied to a string (`src/whatsapp/jid.py` lines 98-107):
parse, normalize; on `JIDParseError` warn and return the input unchanged. -/
def normalize_jid (s : PyStr) : PyStr :=
  match parse_jid s with
  | Except.ok j => normalizeJID j
  | Except.error _ => s

/-! ## Failure condition of `parse_jid`, stated from the code's checks -/

/-- The part of the input before the first `'@'` (the whole input when there
is no `'@'`): `parts[0]` of `jid.split("@")`. -/
def leftPart (s : PyStr) : PyStr := (splitOnChar '@' s).headD []

/-- `parts[1]` of `jid.split("@")` (meaningful only when `'@' ∈ s`). -/
def secondPart (s : PyStr) : PyStr := ((splitOnChar '@' s).drop 1).headD []

/-- An agent/device field is bad: not parseable as an integer, or outside
`[0, 255]`. -/
def byteFieldBad (s : PyStr) : Bool :=
  match pyInt? s with
  | none => true
  | some n => decide (n < 0 ∨ 255 < n)

/-- The error condition of `parse_ad_jid`: a separator is missing (no `'.'`,
no `':'`, or the first `':'` not after the first `'.'`), or the agent or
device value is non-numeric or out of range. -/
def adFailCond (l : PyStr) : Bool :=
  match pyFind '.' l, pyFind ':' l with
  | some d, some c =>
    decide (c + 1 ≤ d) || byteFieldBad ((l.drop (d + 1)).take (c - (d + 1)))
      || byteFieldBad (l.drop (c + 1))
  | _, _ => true

/-- The claimed failure condition of `parse_jid`: either no `'@'` and a
non-numeric left side, or the extended (ad) notation is attempted (a `':'`
and a `'.'` in the left part, default user server) and its separators or
agent/device values are bad. -/
def parseFailCond (s : PyStr) : Bool :=
  (!decide ('@' ∈ s) && !pyIsNumeric s)
    || (decide ('@' ∈ s) && decide (':' ∈ leftPart s)
        && decide (secondPart s = DefaultUserServer) && decide ('.' ∈ leftPart s)
        && adFailCond (leftPart s))

/-! ## `src/models/upsert.py` : the single-statement upsert

`upsert(session, entity)` splits the entity's columns into the primary-key
columns and the non-key columns, and issues ONE
`INSERT .. ON CONFLICT (pk) DO UPDATE SET <every non-key column> = EXCLUDED.<column>`
statement — there is no read-then-branch-then-write.  A table is modelled as
a `List α` of rows with a key projection `key : α → K` (the primary-key
columns); the statement's database semantics is: if a row with the same key
exists, all its non-key columns become the supplied values (the row is
replaced, keys being equal), otherwise the row is appended. -/

/-- PostgreSQL execution of the single `INSERT .. ON CONFLICT (pk) DO UPDATE`
statement that `upsert` builds. -/
def execUpsertBy {α K : Type} [DecidableEq K] (key : α → K) (a : α) (t : List α) : List α :=
  if t.any (fun r => decide (key r = key a)) then
    t.map (fun r => if key r = key a then a else r)
  else t ++ [a]

/-- `upsert` for an entity whose primary-key columns are the first component
and whose non-key columns are the second. -/
def upsertPair {K V : Type} [DecidableEq K] (t : List (K × V)) (e : K × V) : List (K × V) :=
  execUpsertBy Prod.fst e t

/-- Number of rows keyed by `k`. -/
def countKey {K V : Type} [DecidableEq K] (k : K) (t : List (K × V)) : Nat :=
  (t.filter (fun r => decide (r.1 = k))).length

/-- The non-key columns of the (first) row keyed by `k`. -/
def lookupKey {K V : Type} [DecidableEq K] (k : K) (t : List (K × V)) : Option V :=
  (t.find? (fun r => decide (r.1 = k))).map Prod.snd

/-- The table invariant: primary keys are unique. -/
abbrev keysNodup {K V : Type} (t : List (K × V)) : Prop := (t.map Prod.fst).Nodup

/-! ## Entity rows and the database (`src/models/*.py`) -/

/-- `Sender` row (`src/models/sender.py`): key `jid`, value `push_name`. -/
structure SenderRow where
  jid : PyStr
  push_name : Option PyStr := none
deriving DecidableEq, Repr

/-- `Group` row (`src/models/group.py`). -/
structure GroupRow where
  group_jid : PyStr
  group_name : Option PyStr := none
  group_topic : Option PyStr := none
  owner_jid : Option PyStr := none
  managed : Bool := false
  forward_url : Option PyStr := none
  notify_on_spam : Bool := false
  community_keys : Option (List PyStr) := none
deriving DecidableEq, Repr

/-- `Message` row (`src/models/message.py`); the timestamp is opaque. -/
structure MessageRow where
  message_id : PyStr
  timestamp : Nat := 0
  text : Option PyStr := none
  media_url : Option PyStr := none
  chat_jid : PyStr
  sender_jid : PyStr
  group_jid : Option PyStr := none
  reply_to_id : Option PyStr := none
deriving DecidableEq, Repr

/-- `KBTopic` row (`src/models/knowledge_base_topic.py`); embeddings are
modelled as rational vectors. -/
structure KBTopicRow where
  id : PyStr
  group_jid : Option PyStr := none
  subject : PyStr := []
  summary : PyStr := []
  embedding : List ℚ := []
deriving DecidableEq, Repr

/-- The relational store. -/
structure DB where
  senders : List SenderRow := []
  groups : List GroupRow := []
  messages : List MessageRow := []
  topics : List KBTopicRow := []
deriving DecidableEq, Repr

def hasSender (db : DB) (jid : PyStr) : Bool :=
  db.senders.any (fun s => decide (s.jid = jid))

def hasGroup (db : DB) (jid : PyStr) : Bool :=
  db.groups.any (fun g => decide (g.group_jid = jid))

def hasMessage (db : DB) (mid : PyStr) : Bool :=
  db.messages.any (fun m => decide (m.message_id = mid))

/-- Referential integrity: every message's `sender_jid` has a Sender row and
every set `group_jid` has a Group row. -/
def refIntegrity (db : DB) : Prop :=
  ∀ m ∈ db.messages,
    hasSender db m.sender_jid = true ∧
    (∀ g, m.group_jid = some g → hasGroup db g = true)

/-! ## `src/models/webhook.py` : the parsed webhook payload shape -/

/-- `Message` payload part: id, text, replied id. -/
structure WebhookMessage where
  id : Option PyStr := none
  text : Option PyStr := none
  replied_id : Option PyStr := none
deriving DecidableEq, Repr

/-- `ExtractedMedia`: `media_path`, `mime_type` (ignored) and `caption` are
required strings. -/
structure ExtractedMedia where
  media_path : PyStr := []
  caption : PyStr := []
deriving DecidableEq, Repr

structure ContactMessage where
  display_name : Option PyStr := none
deriving DecidableEq, Repr

structure LocationMessage where
  name : Option PyStr := none
deriving DecidableEq, Repr

structure ListMessage where
  title : Option PyStr := none
deriving DecidableEq, Repr

structure OrderMessage where
  message : Option PyStr := none
deriving DecidableEq, Repr

/-- `WhatsAppWebhookPayload` (fields relevant to ingestion). -/
structure WhatsAppWebhookPayload where
  from_ : Option PyStr := none
  timestamp : Nat := 0
  pushname : Option PyStr := none
  message : Option WebhookMessage := none
  audio : Option ExtractedMedia := none
  document : Option ExtractedMedia := none
  image : Option ExtractedMedia := none
  sticker : Option ExtractedMedia := none
  video : Option ExtractedMedia := none
  contact : Option ContactMessage := none
  list : Option ListMessage := none
  location : Option LocationMessage := none
  order : Option OrderMessage := none
deriving DecidableEq, Repr

/-! ## `src/models/message.py` : building a Message from a payload -/

/-- `_extract_media_url`: first of image, video, audio, document, sticker
with a truthy `media_path`. -/
def mediaUrl? (m : Option ExtractedMedia) : Option PyStr :=
  match m with
  | some med => if med.media_path.isEmpty then none else some med.media_path
  | none => none

def extract_media_url (p : WhatsAppWebhookPayload) : Option PyStr :=
  (mediaUrl? p.image) <|> (mediaUrl? p.video) <|> (mediaUrl? p.audio) <|>
    (mediaUrl? p.document) <|> (mediaUrl? p.sticker)

/-- One step of `_extract_message_text`'s caption fallback: a truthy caption
attribute yields `"[[Attached <Type>]] <caption>"`. -/
def attachedText (label : String) (caption? : Option PyStr) : Option PyStr :=
  match caption? with
  | some c => if c.isEmpty then none else some (("[[Attached " ++ label ++ "]] ").toList ++ c)
  | none => none

/-- `_extract_message_text`: the direct text if truthy, else the first truthy
caption attribute in the fixed priority order image, video, audio, document,
sticker, contact, location, (poll — the payload model has no `poll` field, so
`getattr` always yields `None` and this entry never fires), list, order. -/
def extract_message_text (p : WhatsAppWebhookPayload) : Option PyStr :=
  match p.message with
  | none => none
  | some m =>
    if truthy m.text then m.text
    else
      (attachedText "Image" (p.image.map (fun c => c.caption))) <|>
      (attachedText "Video" (p.video.map (fun c => c.caption))) <|>
      (attachedText "Audio" (p.audio.map (fun c => c.caption))) <|>
      (attachedText "Document" (p.document.map (fun c => c.caption))) <|>
      (attachedText "Sticker" (p.sticker.map (fun c => c.caption))) <|>
      (attachedText "Contact" (p.contact.bind (fun c => c.display_name))) <|>
      (attachedText "Location" (p.location.bind (fun c => c.name))) <|>
      (attachedText "List" (p.list.bind (fun c => c.title))) <|>
      (attachedText "Order" (p.order.bind (fun c => c.message)))

/-- Errors of the ingestion path: Python `AssertionError`, the `ValueError`
of tuple unpacking, `JIDParseError`, pydantic `ValidationError`, and
database-level errors surfaced at flush time. -/
inductive IngestError where
  | assertionError (which : String)
  | valueError
  | jidParseError (msg : String)
  | validationError
  | dbError (msg : String)
deriving DecidableEq, Repr

/-- The pydantic validators of `BaseMessage` (`src/models/message.py` lines
33-50), run on every (re)construction of a `BaseMessage`/`Message`:
`validate_chat_jid` parses `chat_jid` (raising `JIDParseError` on failure),
sets `group_jid` to the normalized chat JID when the chat is a group, and
normalizes `chat_jid`; then the `normalize` field validator maps `sender_jid`
and `group_jid` through `normalize_jid` (a falsy value becoming `None`, which
for the required `sender_jid` is a `ValidationError`). -/
def validateBaseMessage (m : MessageRow) : Except IngestError MessageRow :=
  match parse_jid m.chat_jid with
  | Except.error e => Except.error (IngestError.jidParseError e)
  | Except.ok jid =>
    let group_jid0 := if jid.is_group then some jid.to_non_ad.str else m.group_jid
    let chat_jid := jid.to_non_ad.str
    if m.sender_jid.isEmpty then Except.error IngestError.validationError
    else
      Except.ok { m with
        chat_jid := chat_jid,
        sender_jid := normalize_jid m.sender_jid,
        group_jid := match group_jid0 with
          | some g => if g.isEmpty then none else some (normalize_jid g)
          | none => none }

/-- The `" in "` sender/chat separator of the webhook `from` field. -/
def SEP_IN : PyStr := " in ".toList

/-- `Message.from_webhook` (`src/models/message.py` lines 70-91): assert the
message, its id and the `from` field; split `from` on `" in "` into sender
and chat (identical when the separator is absent; a split into three or more
parts is a `ValueError` of tuple unpacking); extract text and media; then
`cls(**BaseMessage(...).model_dump())` runs the validators twice. -/
def from_webhook (p : WhatsAppWebhookPayload) : Except IngestError MessageRow :=
  match p.message with
  | none => Except.error (IngestError.assertionError "Missing message")
  | some m =>
    match m.id with
    | none => Except.error (IngestError.assertionError "Missing message ID")
    | some mid =>
      if mid.isEmpty then Except.error (IngestError.assertionError "Missing message ID")
      else
        match p.from_ with
        | none => Except.error (IngestError.assertionError "Missing sender")
        | some fr =>
          if fr.isEmpty then Except.error (IngestError.assertionError "Missing sender")
          else
            match (if containsSeq SEP_IN fr then
                     match pySplitSeq SEP_IN fr with
                     | [a, b] => Except.ok (a, b)
                     | _ => Except.error IngestError.valueError
                   else Except.ok (fr, fr) : Except IngestError (PyStr × PyStr)) with
            | Except.error e => Except.error e
            | Except.ok (sender_raw, chat_raw) =>
              match validateBaseMessage
                  { message_id := mid, timestamp := p.timestamp,
                    text := extract_message_text p, media_url := extract_media_url p,
                    chat_jid := chat_raw, sender_jid := sender_raw,
                    group_jid := none, reply_to_id := m.replied_id } with
              | Except.error e => Except.error e
              | Except.ok base => validateBaseMessage base

/-! ## `src/handler/base_handler.py` : `store_message` -/

/-- VARCHAR column limit (`max_length=255` on the key/jid columns). -/
def VARCHAR_MAX : Nat := 255

/-- An optional VARCHAR column value exceeding the 255-character limit. -/
def optStrTooLong : Option PyStr → Bool
  | some s => decide (VARCHAR_MAX < s.length)
  | none => false

/-- A set `group_jid` whose Group row is missing (foreign-key violation). -/
def groupFkMissing (db : DB) : Option PyStr → Bool
  | some g => !hasGroup db g
  | none => false

/-- Ensure-sender step: build `Sender(**BaseSender(jid=.., push_name=..))`
(whose field validator normalizes `jid` again) and upsert it; the flush can
fail on column-length limits. -/
def upsertSenderRow (db : DB) (jid : PyStr) (pushname : Option PyStr) :
    Except IngestError DB :=
  if jid.isEmpty then Except.error IngestError.validationError
  else
    let jid2 := normalize_jid jid
    if VARCHAR_MAX < jid2.length then Except.error (IngestError.dbError "sender jid too long")
    else if optStrTooLong pushname then
      Except.error (IngestError.dbError "push_name too long")
    else Except.ok { db with
      senders := execUpsertBy SenderRow.jid { jid := jid2, push_name := pushname } db.senders }

/-- Ensure-group step: `Group(**BaseGroup(group_jid=..))` (defaults
everywhere else) upserted; the field validator normalizes the jid again. -/
def upsertGroupRow (db : DB) (gjid : PyStr) : Except IngestError DB :=
  if gjid.isEmpty then Except.error IngestError.validationError
  else
    let gjid2 := normalize_jid gjid
    if VARCHAR_MAX < gjid2.length then Except.error (IngestError.dbError "group jid too long")
    else Except.ok { db with
      groups := execUpsertBy GroupRow.group_jid { group_jid := gjid2 } db.groups }

/-- `session.add(message); flush`: the INSERT fails on an over-long VARCHAR
column, a duplicate primary key, or a missing foreign-key row. -/
def insertMessageRow (db : DB) (m : MessageRow) : Except IngestError DB :=
  if VARCHAR_MAX < m.message_id.length then
    Except.error (IngestError.dbError "message_id too long")
  else if VARCHAR_MAX < m.chat_jid.length then
    Except.error (IngestError.dbError "chat_jid too long")
  else if VARCHAR_MAX < m.sender_jid.length then
    Except.error (IngestError.dbError "sender_jid too long")
  else if optStrTooLong m.group_jid then
    Except.error (IngestError.dbError "group_jid too long")
  else if hasMessage db m.message_id then
    Except.error (IngestError.dbError "duplicate message_id")
  else if !hasSender db m.sender_jid then
    Except.error (IngestError.dbError "sender fk violation")
  else if groupFkMissing db m.group_jid then
    Except.error (IngestError.dbError "group fk violation")
  else Except.ok { db with messages := db.messages ++ [m] }

/-- The body of the `begin_nested()` block of `BaseHandler.store_message`
(`src/handler/base_handler.py` lines 44-68): ensure the sender, ensure the
group when `message.group_jid` is truthy, then insert the message. -/
def ingestUnit (db : DB) (m : MessageRow) (pushname : Option PyStr) :
    Except IngestError DB :=
  match (if hasSender db m.sender_jid then Except.ok db
         else upsertSenderRow db m.sender_jid pushname) with
  | Except.error e => Except.error e
  | Except.ok db1 =>
    match (match m.group_jid with
           | some g =>
             if g.isEmpty then Except.ok db1
             else if hasGroup db1 g then Except.ok db1
             else upsertGroupRow db1 g
           | none => Except.ok db1) with
    | Except.error e => Except.error e
    | Except.ok db2 => insertMessageRow db2 m

/-- Result of `store_message` as observed by the caller. -/
inductive StoreOutcome where
  | stored (m : MessageRow)
  | skippedNoText (m : MessageRow)
  | failed (e : IngestError)
deriving DecidableEq, Repr

/-- `BaseHandler.store_message` on a webhook payload
(`src/handler/base_handler.py` lines 24-71): build the `Message` via
`from_webhook` (plus the `Message(**message.model_dump())` re-validation of
the `isinstance(message, BaseMessage)` branch); return without storing when
the message has no truthy text; otherwise run the nested atomic unit — any
error inside it rolls the database back to its state at entry and
propagates. -/
def store_message (db : DB) (p : WhatsAppWebhookPayload) : DB × StoreOutcome :=
  match (from_webhook p).bind validateBaseMessage with
  | Except.error e => (db, StoreOutcome.failed e)
  | Except.ok m =>
    if !truthy m.text then (db, StoreOutcome.skippedNoText m)
    else
      match ingestUnit db m p.pushname with
      | Except.ok db2 => (db2, StoreOutcome.stored m)
      | Except.error e => (db, StoreOutcome.failed e)

/-- The router guard of the message-handling loop (`src/handler/__init__.py`
`MessageHandler.__call__`): a stored message is routed to an intent handler
only when `message.text` is truthy; a failed store raises before routing. -/
def handlerRoutesMessage (out : StoreOutcome) : Bool :=
  match out with
  | StoreOutcome.stored m => truthy m.text
  | StoreOutcome.skippedNoText m => truthy m.text
  | StoreOutcome.failed _ => false

/-! ## `src/models/group.py` + `src/handler/knowledge_base_answers.py` :
community-scoped retrieval -/

/-- Python truthiness of the optional `community_keys` list. -/
def truthyKeys : Option (List PyStr) → Bool
  | none => false
  | some l => !l.isEmpty

/-- The PostgreSQL array-overlap operator `&&`; a NULL operand is never
`TRUE`. -/
def keysOverlap : Option (List PyStr) → Option (List PyStr) → Bool
  | some a, some b => a.any (fun k => decide (k ∈ b))
  | _, _ => false

/-- `Group.get_related_community_groups` (`src/models/group.py` lines 56-80):
`[]` when this group's `community_keys` is falsy; otherwise every other group
whose keys overlap. -/
def get_related_community_groups (groups : List GroupRow) (g : GroupRow) : List GroupRow :=
  if !truthyKeys g.community_keys then []
  else
    groups.filter (fun g' =>
      decide (g'.group_jid ≠ g.group_jid) && keysOverlap g'.community_keys g.community_keys)

/-- The `select_from` computation of `KnowledgeBaseAnswers.__call__`
(`src/handler/knowledge_base_answers.py` lines 44-50): `None` without a
scope group; otherwise the scope group itself plus (when it has truthy
community keys) its related community groups. -/
def selectFromGroups (db : DB) (scope : Option GroupRow) : Option (List GroupRow) :=
  match scope with
  | none => none
  | some g =>
    some (g :: (if truthyKeys g.community_keys then
      get_related_community_groups db.groups g else []))

/-- Squared L2 distance.  The query orders by `l2_distance` (the square
root of this); the square root is monotone, so the induced ordering is
identical. -/
def l2sq (a b : List ℚ) : ℚ := ((a.zip b).map (fun pr => (pr.1 - pr.2) ^ 2)).sum

/-- The `ORDER BY l2_distance` comparison. -/
def topicLE (q : List ℚ) (t t' : KBTopicRow) : Bool :=
  decide (l2sq t.embedding q ≤ l2sq t'.embedding q)

/-- The retrieval query of `KnowledgeBaseAnswers.__call__` (lines 52-64):
`SELECT .. FROM kbtopic [WHERE group_jid IN (candidate jids)] ORDER BY
embedding <-> query LIMIT 5`.  A row with a NULL `group_jid` never satisfies
the SQL `IN` filter. -/
def retrieveTopics (db : DB) (scope : Option GroupRow) (q : List ℚ) : List KBTopicRow :=
  let filtered :=
    match selectFromGroups db scope with
    | none => db.topics
    | some gs =>
      db.topics.filter fun t =>
        match t.group_jid with
        | some j => gs.any (fun g => decide (g.group_jid = j))
        | none => false
  (filtered.mergeSort (topicLE q)).take 5

/-! ## Retry policy (`@retry` decorators of
`src/handler/knowledge_base_answers.py` lines 93-98 and 126-131) -/

structure RetryPolicy where
  waitMin : ℚ
  waitMax : ℚ
  maxAttempts : Nat
  reraise : Bool
deriving DecidableEq, Repr

/-- The decorator parameters on `KnowledgeBaseAnswers.generation_agent`:
`wait_random_exponential(min=1, max=30)`, `stop_after_attempt(6)`,
`reraise=True`. -/
def generationAgentRetry : RetryPolicy :=
  { waitMin := 1, waitMax := 30, maxAttempts := 6, reraise := true }

/-- The identical decorator parameters on
`KnowledgeBaseAnswers.rephrasing_agent`. -/
def rephrasingAgentRetry : RetryPolicy :=
  { waitMin := 1, waitMax := 30, maxAttempts := 6, reraise := true }

/-- Modelled from the spec: the retry executor itself lives in the external
`tenacity` library, not under `src/`.  Per the spec (§4.5), attempts are
numbered from 1; the first successful attempt's result is returned; after the
final allowed attempt fails, its failure is propagated (`reraise=True`). -/
def retryFrom {E A : Type} (call : Nat → Except E A) : Nat → Nat → Except E A
  | _, 0 => call 1
  | attempt, 1 => call attempt
  | attempt, r + 2 =>
    match call attempt with
    | Except.ok a => Except.ok a
    | Except.error _ => retryFrom call (attempt + 1) (r + 1)

/-- Run a call under a retry policy. -/
def retryRun {E A : Type} (p : RetryPolicy) (call : Nat → Except E A) : Except E A :=
  retryFrom call 1 p.maxAttempts

/-- Modelled from the spec: the randomized exponential backoff delay before
retrying after `attempt` — a random point (sample `u ∈ [0,1]`) in a window
that starts at `waitMin` and widens exponentially, capped at `waitMax`. -/
def backoffWait (p : RetryPolicy) (attempt : Nat) (u : ℚ) : ℚ :=
  p.waitMin + u * (min p.waitMax (p.waitMin * 2 ^ (attempt - 1)) - p.waitMin)

/-- Modelled from the spec (§7): after retry exhaustion the conversation
receives a fallback reply rather than an unhandled crash. -/
def answerWithFallback {E : Type} (p : RetryPolicy) (call : Nat → Except E PyStr)
    (fallback : PyStr) : PyStr :=
  match retryRun p call with
  | Except.ok a => a
  | Except.error _ => fallback

/-! ## Lemmas on the Python string primitives -/

theorem splitOnChar_ne_nil (c : Char) (l : PyStr) : splitOnChar c l ≠ [] := by
  induction l with
  | nil => simp [splitOnChar]
  | cons x xs ih =>
    simp only [splitOnChar]
    split
    · simp
    · cases h : splitOnChar c xs with
      | nil => simp
      | cons y ys => simp

theorem not_mem_of_mem_splitOnChar {c : Char} {l p : PyStr}
    (hp : p ∈ splitOnChar c l) : c ∉ p := by
  induction l generalizing p with
  | nil =>
    simp only [splitOnChar, List.mem_singleton] at hp
    simp [hp]
  | cons x xs ih =>
    simp only [splitOnChar] at hp
    by_cases hx : x = c
    · rw [if_pos hx] at hp
      rcases List.mem_cons.mp hp with h | h
      · simp [h]
      · exact ih h
    · rw [if_neg hx] at hp
      cases hrest : splitOnChar c xs with
      | nil => exact absurd hrest (splitOnChar_ne_nil c xs)
      | cons y ys =>
        rw [hrest] at hp
        rcases List.mem_cons.mp hp with h | h
        · subst h
          intro hmem
          rcases List.mem_cons.mp hmem with h | h
          · exact hx h.symm
          · exact ih (hrest ▸ List.mem_cons_self y ys) h
        · exact ih (hrest ▸ List.mem_cons.mpr (Or.inr h))

theorem subset_of_mem_splitOnChar {c : Char} {l p : PyStr}
    (hp : p ∈ splitOnChar c l) : p ⊆ l := by
  induction l generalizing p with
  | nil =>
    simp only [splitOnChar, List.mem_singleton] at hp
    simp [hp]
  | cons x xs ih =>
    simp only [splitOnChar] at hp
    by_cases hx : x = c
    · rw [if_pos hx] at hp
      rcases List.mem_cons.mp hp with h | h
      · simp [h]
      · exact (ih h).trans (List.subset_cons_self x xs)
    · rw [if_neg hx] at hp
      cases hrest : splitOnChar c xs with
      | nil => exact absurd hrest (splitOnChar_ne_nil c xs)
      | cons y ys =>
        rw [hrest] at hp
        rcases List.mem_cons.mp hp with h | h
        · subst h
          exact List.cons_subset_cons x
            ((ih (hrest ▸ List.mem_cons_self y ys)))
        · exact ((ih (hrest ▸ List.mem_cons.mpr (Or.inr h)))).trans
            (List.subset_cons_self x xs)

theorem splitOnChar_of_not_mem {c : Char} {l : PyStr} (h : c ∉ l) :
    splitOnChar c l = [l] := by
  induction l with
  | nil => simp [splitOnChar]
  | cons x xs ih =>
    have hx : x ≠ c := fun hxc => h (hxc ▸ List.mem_cons_self x xs)
    have hxs : c ∉ xs := fun hc => h (List.mem_cons.mpr (Or.inr hc))
    simp only [splitOnChar, if_neg hx, ih hxs]

theorem splitOnChar_append {c : Char} {u : PyStr} (v : PyStr) (h : c ∉ u) :
    splitOnChar c (u ++ c :: v) = u :: splitOnChar c v := by
  induction u with
  | nil => simp [splitOnChar]
  | cons x xs ih =>
    have hx : x ≠ c := fun hxc => h (hxc ▸ List.mem_cons_self x xs)
    have hxs : c ∉ xs := fun hc => h (List.mem_cons.mpr (Or.inr hc))
    simp only [List.cons_append, splitOnChar, if_neg hx]
    rw [show xs.append (c :: v) = xs ++ c :: v from rfl, ih hxs]

theorem two_le_length_splitOnChar {c : Char} {l : PyStr} (h : c ∈ l) :
    2 ≤ (splitOnChar c l).length := by
  induction l with
  | nil => simp at h
  | cons x xs ih =>
    simp only [splitOnChar]
    by_cases hx : x = c
    · rw [if_pos hx]
      have := splitOnChar_ne_nil c xs
      cases hrest : splitOnChar c xs with
      | nil => exact absurd hrest this
      | cons y ys => simp
    · rw [if_neg hx]
      have hxs : c ∈ xs := by
        rcases List.mem_cons.mp h with h' | h'
        · exact absurd h'.symm hx
        · exact h'
      cases hrest : splitOnChar c xs with
      | nil => exact absurd hrest (splitOnChar_ne_nil c xs)
      | cons y ys =>
        have := ih hxs
        rw [hrest] at this
        simpa using this

theorem eq_singleton_splitOnChar {c : Char} {l p : PyStr}
    (h : splitOnChar c l = [p]) : c ∉ l ∧ p = l := by
  have hcl : c ∉ l := by
    intro hc
    have := two_le_length_splitOnChar hc
    rw [h] at this
    simp at this
  refine ⟨hcl, ?_⟩
  have := splitOnChar_of_not_mem hcl
  rw [h] at this
  exact (List.cons.injEq _ _ _ _ ▸ this).1

theorem pyFind_eq_none {c : Char} {l : PyStr} (h : pyFind c l = none) : c ∉ l := by
  induction l with
  | nil => simp
  | cons x xs ih =>
    simp only [pyFind] at h
    by_cases hx : x = c
    · simp [hx] at h
    · rw [if_neg hx] at h
      cases hp : pyFind c xs with
      | none =>
        intro hmem
        rcases List.mem_cons.mp hmem with h' | h'
        · exact hx h'.symm
        · exact ih hp h'
      | some j => rw [hp] at h; simp at h

theorem pyFind_not_mem_take {c : Char} {l : PyStr} {i : Nat}
    (h : pyFind c l = some i) : c ∉ l.take i := by
  induction l generalizing i with
  | nil => simp
  | cons x xs ih =>
    simp only [pyFind] at h
    by_cases hx : x = c
    · rw [if_pos hx] at h
      cases h
      simp
    · rw [if_neg hx] at h
      cases hp : pyFind c xs with
      | none => rw [hp] at h; simp at h
      | some i' =>
        rw [hp] at h
        simp only [Option.map_some', Option.some.injEq] at h
        subst h
        simp only [List.take_succ_cons]
        intro hmem
        rcases List.mem_cons.mp hmem with h' | h'
        · exact hx h'.symm
        · exact ih hp h'

theorem not_mem_take_of_le {c : Char} {l : PyStr} {m n : Nat}
    (hmn : m ≤ n) (h : c ∉ l.take n) : c ∉ l.take m := by
  intro hc
  apply h
  have : l.take m = (l.take n).take m := by
    rw [List.take_take, Nat.min_eq_left hmn]
  rw [this] at hc
  exact List.take_subset _ _ hc

theorem startsWithSeq_of_drop_ge {sep l : PyStr} {i : Nat}
    (hsep : sep ≠ []) (hi : l.length ≤ i) : startsWithSeq sep (l.drop i) = false := by
  have hd : l.drop i = [] := List.drop_eq_nil_of_le hi
  rw [hd]
  simp only [startsWithSeq, List.take_nil, decide_eq_false_iff_not]
  exact fun h => hsep h.symm

theorem pySplitSeqAux_no_occ {sep : PyStr} (hsep : sep ≠ []) :
    ∀ (fuel : Nat) (l : PyStr), l.length + 1 ≤ fuel →
    (∀ i, startsWithSeq sep (l.drop i) = false) →
    pySplitSeqAux sep fuel l = [l] := by
  intro fuel
  induction fuel with
  | zero => intro l hf; omega
  | succ f ih =>
    intro l hf h
    cases l with
    | nil => rfl
    | cons x xs =>
      have h0 := h 0
      simp only [List.drop_zero] at h0
      simp only [pySplitSeqAux, h0, Bool.and_false, Bool.false_eq_true, if_false]
      have hxs : pySplitSeqAux sep f xs = [xs] := by
        apply ih
        · simp only [List.length_cons] at hf; omega
        · intro i
          have := h (i + 1)
          simpa using this
      rw [hxs]

theorem pySplitSeqAux_append {sep B : PyStr} (hsep : sep ≠ []) :
    ∀ (A : PyStr) (fuel : Nat), (A ++ sep ++ B).length + 1 ≤ fuel →
    (∀ i, i < A.length → startsWithSeq sep ((A ++ sep ++ B).drop i) = false) →
    ∃ fuel', B.length + 1 ≤ fuel' ∧
      pySplitSeqAux sep fuel (A ++ sep ++ B) = A :: pySplitSeqAux sep fuel' B := by
  intro A
  induction A with
  | nil =>
    intro fuel hf _
    cases fuel with
    | zero => omega
    | succ f =>
      cases hs : sep with
      | nil => exact absurd hs hsep
      | cons s0 st =>
        refine ⟨f, ?_, ?_⟩
        · rw [hs] at hf
          simp only [List.nil_append, List.length_append, List.length_cons] at hf
          omega
        · rw [← hs]
          have hne : sep.isEmpty = false := by
            rw [hs]; rfl
          have hsw : startsWithSeq sep (sep ++ B) = true := by
            simp [startsWithSeq, List.take_left]
          have hrw : ([] : PyStr) ++ sep ++ B = sep ++ B := by simp
          rw [hrw]
          cases hsb : sep ++ B with
          | nil =>
            rw [hs] at hsb; simp at hsb
          | cons z zs =>
            rw [← hsb]
            have : pySplitSeqAux sep (f + 1) (sep ++ B) =
                [] :: pySplitSeqAux sep f ((sep ++ B).drop sep.length) := by
              rw [hsb]
              simp only [pySplitSeqAux, ← hsb, hne, hsw, Bool.not_false, Bool.true_and,
                if_true]
            rw [this, List.drop_left]
  | cons a A' ih =>
    intro fuel hf h
    cases fuel with
    | zero => omega
    | succ f =>
      have h0 := h 0 (by simp)
      simp only [List.drop_zero] at h0
      have hstep : (a :: A') ++ sep ++ B = a :: (A' ++ sep ++ B) := by simp
      have hcond : startsWithSeq sep (a :: (A' ++ sep ++ B)) = false := by
        rw [← hstep]; exact h0
      obtain ⟨fuel', hf', heq⟩ := ih f
        (by simp only [hstep, List.length_cons] at hf ⊢; omega)
        (by
          intro i hi
          have := h (i + 1) (by simp only [List.length_cons]; omega)
          rw [hstep] at this
          simpa using this)
      refine ⟨fuel', hf', ?_⟩
      rw [hstep]
      simp only [pySplitSeqAux, hcond, Bool.and_false, Bool.false_eq_true, if_false]
      rw [heq]

theorem pySplitSeq_sep_eq {sep A B : PyStr} (hsep : sep ≠ [])
    (hA : ∀ i, i < A.length → startsWithSeq sep ((A ++ sep ++ B).drop i) = false)
    (hB : ∀ i, i < B.length → startsWithSeq sep (B.drop i) = false) :
    pySplitSeq sep (A ++ sep ++ B) = [A, B] := by
  obtain ⟨fuel', hf', heq⟩ :=
    pySplitSeqAux_append hsep A ((A ++ sep ++ B).length + 1) (le_refl _) hA
  have hBall : ∀ i, startsWithSeq sep (B.drop i) = false := by
    intro i
    by_cases hi : i < B.length
    · exact hB i hi
    · exact startsWithSeq_of_drop_ge hsep (by omega)
  rw [pySplitSeq, heq, pySplitSeqAux_no_occ hsep fuel' B hf' hBall]

theorem containsSeq_append_sep {sep A B : PyStr} (hsep : sep ≠ []) :
    containsSeq sep (A ++ sep ++ B) = true := by
  rw [containsSeq, List.any_eq_true]
  refine ⟨A.length, ?_, ?_⟩
  · rw [List.mem_range]
    simp only [List.length_append]
    omega
  · have : (A ++ sep ++ B).drop A.length = sep ++ B := by
      rw [List.append_assoc, List.drop_left]
    rw [this]
    simp [startsWithSeq, List.take_left]

/-! ## Characterization of `parse_jid` outputs -/

theorem digit_of_mem_pyIsNumeric {p : PyStr} (h : pyIsNumeric p = true) :
    ∀ c ∈ p, c.isDigit = true := by
  rw [pyIsNumeric, Bool.and_eq_true] at h
  exact fun c hc => List.all_eq_true.mp h.2 c hc

theorem colon_not_mem_of_pyIsNumeric {p : PyStr} (h : pyIsNumeric p = true) :
    ':' ∉ p := by
  intro hc
  have := digit_of_mem_pyIsNumeric h ':' hc
  simp [Char.isDigit] at this

theorem parse_ad_jid_ok_shape {u : PyStr} {j : JID}
    (h : parse_ad_jid u = Except.ok j) :
    j.ad = true ∧ j.server = DefaultUserServer ∧ ':' ∉ j.user ∧ j.user ⊆ u := by
  cases hd : pyFind '.' u with
  | none =>
    cases hc : pyFind ':' u <;> simp [parse_ad_jid, hd, hc] at h
  | some d =>
    cases hc : pyFind ':' u with
    | none => simp [parse_ad_jid, hd, hc] at h
    | some c =>
      simp only [parse_ad_jid, hd, hc] at h
      by_cases hord : c + 1 ≤ d
      · rw [if_pos hord] at h; exact Except.noConfusion h
      · rw [if_neg hord] at h
        have hdc : d ≤ c := by omega
        cases ha : pyInt? ((u.drop (d + 1)).take (c - (d + 1))) with
        | none => simp only [ha] at h; exact Except.noConfusion h
        | some a =>
          simp only [ha] at h
          by_cases hra : a < 0 ∨ 255 < a
          · rw [if_pos hra] at h; exact Except.noConfusion h
          · rw [if_neg hra] at h
            cases hdev : pyInt? (u.drop (c + 1)) with
            | none => simp only [hdev] at h; exact Except.noConfusion h
            | some dev =>
              simp only [hdev] at h
              by_cases hrd : dev < 0 ∨ 255 < dev
              · rw [if_pos hrd] at h; exact Except.noConfusion h
              · rw [if_neg hrd] at h
                cases h
                exact ⟨rfl, rfl, not_mem_take_of_le hdc (pyFind_not_mem_take hc),
                  List.take_subset _ _⟩

theorem parse_jid_ok_shape {s : PyStr} {j : JID} (h : parse_jid s = Except.ok j) :
    '@' ∉ j.user ∧ '@' ∉ j.server ∧
    (j.ad = true → j.server = DefaultUserServer ∧ ':' ∉ j.user) ∧
    (j.ad = false → (':' ∈ j.user → j.server ≠ DefaultUserServer)) := by
  cases hsp : splitOnChar '@' s with
  | nil => exact absurd hsp (splitOnChar_ne_nil '@' s)
  | cons p0 ps =>
    cases ps with
    | nil =>
      simp only [parse_jid, hsp] at h
      by_cases hnum : pyIsNumeric p0
      · rw [if_pos hnum] at h
        cases h
        have hp0 : p0 ∈ splitOnChar '@' s := hsp ▸ List.mem_singleton.mpr rfl
        refine ⟨not_mem_of_mem_splitOnChar hp0,
          (by decide : ('@' : Char) ∉ DefaultUserServer), by simp [new_jid], ?_⟩
        intro _ hc
        exact absurd hc (colon_not_mem_of_pyIsNumeric hnum)
      · rw [if_neg hnum] at h
        exact Except.noConfusion h
    | cons p1 rest =>
      simp only [parse_jid, hsp] at h
      have hp0 : p0 ∈ splitOnChar '@' s := hsp ▸ List.mem_cons_self _ _
      have hp1 : p1 ∈ splitOnChar '@' s :=
        hsp ▸ List.mem_cons.mpr (Or.inr (List.mem_cons_self _ _))
      have hp0n : '@' ∉ p0 := not_mem_of_mem_splitOnChar hp0
      have hp1n : '@' ∉ p1 := not_mem_of_mem_splitOnChar hp1
      by_cases hcolon : ':' ∈ p0
      · rw [if_pos hcolon] at h
        by_cases hdef : p1 = DefaultUserServer
        · rw [if_pos hdef] at h
          by_cases hdot : '.' ∈ p0
          · rw [if_pos hdot] at h
            obtain ⟨had, hsrv, hcu, husub⟩ := parse_ad_jid_ok_shape h
            refine ⟨fun hm => hp0n (husub hm), ?_, fun _ => ⟨hsrv, hcu⟩, ?_⟩
            · rw [hsrv]
              exact (by decide : ('@' : Char) ∉ DefaultUserServer)
            · intro hf; rw [had] at hf; cases hf
          · rw [if_neg hdot] at h
            cases hs2 : splitOnChar ':' p0 with
            | nil => exact absurd hs2 (splitOnChar_ne_nil ':' p0)
            | cons y ys =>
              rw [hs2] at h
              cases h
              have hy : y ∈ splitOnChar ':' p0 := hs2 ▸ List.mem_cons_self y ys
              refine ⟨?_, hp1n, by simp [new_jid], ?_⟩
              · intro hm
                exact hp0n (subset_of_mem_splitOnChar hy hm)
              · intro _ hc
                exact absurd hc (not_mem_of_mem_splitOnChar hy)
        · rw [if_neg hdef] at h
          cases h
          exact ⟨hp0n, hp1n, by simp [new_jid], fun _ _ => hdef⟩
      · rw [if_neg hcolon] at h
        cases h
        exact ⟨hp0n, hp1n, by simp [new_jid], fun _ hc => absurd hc hcolon⟩

/-- Parsing a canonical `user@server` string (no `'@'` in either part, and a
`':'` in the user part only for a non-default server) recovers the JID. -/
theorem parse_canonical {u srv : PyStr} (hau : '@' ∉ u) (has : '@' ∉ srv)
    (hc : ':' ∈ u → srv ≠ DefaultUserServer) :
    parse_jid (u ++ '@' :: srv) = Except.ok (new_jid u srv) := by
  have hsp : splitOnChar '@' (u ++ '@' :: srv) = [u, srv] := by
    rw [splitOnChar_append srv hau, splitOnChar_of_not_mem has]
  simp only [parse_jid, hsp]
  by_cases hcu : ':' ∈ u
  · rw [if_pos hcu, if_neg (hc hcu)]
  · rw [if_neg hcu]

theorem new_jid_str {u srv : PyStr} (hu : u ≠ []) :
    (new_jid u srv).str = u ++ '@' :: srv := by
  have : u.length > 0 := List.length_pos.mpr hu
  simp [new_jid, JID.str, this]

theorem normalizeJID_eq {j : JID} (hu : j.user ≠ []) :
    normalizeJID j = j.user ++ '@' :: (if j.ad then DefaultUserServer else j.server) := by
  unfold normalizeJID JID.to_non_ad
  by_cases had : j.ad
  · rw [if_pos had, if_pos had]
    exact new_jid_str hu
  · rw [if_neg had, if_neg had]
    have : j.user.length > 0 := List.length_pos.mpr hu
    simp [JID.str, eq_false had, this]

/-- `normalize_jid` is a fixed point on canonical strings. -/
theorem normalize_jid_canonical {u srv : PyStr} (hu : u ≠ []) (hau : '@' ∉ u)
    (has : '@' ∉ srv) (hc : ':' ∈ u → srv ≠ DefaultUserServer) :
    normalize_jid (u ++ '@' :: srv) = u ++ '@' :: srv := by
  unfold normalize_jid
  rw [parse_canonical hau has hc]
  unfold normalizeJID JID.to_non_ad
  simp only [new_jid, if_neg (by simp : ¬ (false = true))]
  exact new_jid_str hu

/-- `normalize_jid` of the normalized form of a parse output with a non-empty
user part is a fixed point. -/
theorem normalize_jid_of_parse_ok {s : PyStr} {j : JID}
    (hp : parse_jid s = Except.ok j) (hju : j.user ≠ []) :
    normalize_jid (normalize_jid s) = normalize_jid s := by
  obtain ⟨hau, has, hadt, hadf⟩ := parse_jid_ok_shape hp
  have h1 : normalize_jid s = normalizeJID j := by
    unfold normalize_jid; rw [hp]
  rw [h1, normalizeJID_eq hju]
  by_cases had : j.ad
  · rw [if_pos had]
    exact normalize_jid_canonical hju hau (by decide)
      (fun hcu => absurd hcu (hadt had).2)
  · rw [if_neg had]
    exact normalize_jid_canonical hju hau has (hadf (eq_false_of_ne_true had ▸ rfl))

theorem except_error_isOk {E A : Type} (e : E) :
    (Except.error e : Except E A).isOk = false := rfl

theorem except_ok_isOk {E A : Type} (a : A) :
    (Except.ok a : Except E A).isOk = true := rfl

theorem except_error_toBool {E A : Type} (e : E) :
    (Except.error e : Except E A).toBool = false := rfl

theorem except_ok_toBool {E A : Type} (a : A) :
    (Except.ok a : Except E A).toBool = true := rfl

/-! ## Claim C7 -/

/-- C7, counterexample: the claimed idempotence `normalize(parse(normalize(a)))
== normalize(a)` fails for the address with an empty user part and server
`"123"`: it normalizes to the bare string `"123"`, which re-parses as a bare
numeric shorthand and re-normalizes to `"123@s.whatsapp.net"`.  (`normalize_jid`
on a string is exactly parse-then-normalize, returning the input on a parse
failure.) -/
theorem normalize_not_idempotent_on_empty_user :
    normalize_jid (normalizeJID { user := [], server := "123".toList }) ≠
      normalizeJID { user := [], server := "123".toList } := by decide

/-- C7 (amended): `normalize` emits the canonical `user@server` form, dropping
agent/device, for every address with a non-empty user part; parse-then-normalize
is idempotent on every string that `parse` either rejects (it passes through
unchanged) or parses to an address with a non-empty user part; and for every
canonical string `u@server` (`u` non-empty, no `'@'` or `':'` in `u`, no `'@'`
in the server) `normalize(parse(s)) == s`. -/
theorem normalize_canonical_form_and_idempotent :
    (∀ j : JID, j.user ≠ [] →
       normalizeJID j = j.user ++ '@' :: (if j.ad then DefaultUserServer else j.server)) ∧
    (∀ s : PyStr, (∀ j, parse_jid s = Except.ok j → j.user ≠ []) →
       normalize_jid (normalize_jid s) = normalize_jid s) ∧
    (∀ u srv : PyStr, u ≠ [] → '@' ∉ u → ':' ∉ u → '@' ∉ srv →
       parse_jid (u ++ '@' :: srv) = Except.ok (new_jid u srv) ∧
       normalizeJID (new_jid u srv) = u ++ '@' :: srv ∧
       normalize_jid (u ++ '@' :: srv) = u ++ '@' :: srv) := by
  refine ⟨fun j hj => normalizeJID_eq hj, ?_, ?_⟩
  · intro s h
    cases hp : parse_jid s with
    | ok j => exact normalize_jid_of_parse_ok hp (h j hp)
    | error e =>
      have hns : normalize_jid s = s := by simp only [normalize_jid, hp]
      rw [hns]
      exact hns
  · intro u srv hu hau hcu has
    refine ⟨parse_canonical hau has (fun hc => absurd hc hcu), ?_,
      normalize_jid_canonical hu hau has (fun hc => absurd hc hcu)⟩
    have hna : (new_jid u srv).to_non_ad = new_jid u srv := by
      simp [JID.to_non_ad, new_jid]
    show (new_jid u srv).to_non_ad.str = u ++ '@' :: srv
    rw [hna, new_jid_str hu]

/-- C7, witness: the amended statement applied to the ad-notation string
`"1234567890.1:2@s.whatsapp.net"` and to the canonical split `"123" @ "c.us"`. -/
theorem normalize_canonical_form_and_idempotent_witness :
    normalize_jid (normalize_jid "1234567890.1:2@s.whatsapp.net".toList) =
      normalize_jid "1234567890.1:2@s.whatsapp.net".toList ∧
    normalize_jid ("123".toList ++ '@' :: "c.us".toList) =
      "123".toList ++ '@' :: "c.us".toList := by
  constructor
  · refine normalize_canonical_form_and_idempotent.2.1 _ (fun j hp => ?_)
    rw [(by decide : parse_jid "1234567890.1:2@s.whatsapp.net".toList =
      Except.ok { user := "1234567890".toList, agent := 1, device := 2,
                  server := DefaultUserServer, ad := true })] at hp
    cases hp
    decide
  · exact (normalize_canonical_form_and_idempotent.2.2 "123".toList "c.us".toList
      (by decide) (by decide) (by decide) (by decide)).2.2

/-! ## Claim C8 -/

/-- C8, counterexample: for the legacy form `user:device@server` with a
non-default server — `"123:4@c.us"` — the device suffix is NOT dropped: the
parsed user part is `"123:4"`, not `"123"`.  The suffix is dropped only when
the server is the default user server. -/
theorem parse_keeps_device_suffix_on_other_server :
    parse_jid "123:4@c.us".toList = Except.ok (new_jid "123:4".toList "c.us".toList) ∧
    (new_jid "123:4".toList "c.us".toList).user ≠ "123".toList := by decide

/-- C8 (amended): for a legacy device-suffixed string `user:device@server`
(no `'@'` anywhere in the parts, no `':'` or `'.'` in `user`, no `'.'` in
`device`), `parse` drops everything from the first `':'` — yielding user
component `user` — exactly when the server is the default user server; for
any other server the left part `user:device` is kept verbatim as the user
component. -/
theorem parse_device_suffix_default_server_only :
    ∀ (u d srv : PyStr), '@' ∉ u → '@' ∉ d → '@' ∉ srv → ':' ∉ u → '.' ∉ u → '.' ∉ d →
      (srv = DefaultUserServer →
        parse_jid ((u ++ ':' :: d) ++ '@' :: srv) =
          Except.ok (new_jid u DefaultUserServer)) ∧
      (srv ≠ DefaultUserServer →
        parse_jid ((u ++ ':' :: d) ++ '@' :: srv) =
          Except.ok (new_jid (u ++ ':' :: d) srv)) := by
  intro u d srv hau had has hcu hdu hdd
  have hp0 : '@' ∉ u ++ ':' :: d := by
    intro hm
    rcases List.mem_append.mp hm with h | h
    · exact hau h
    · rcases List.mem_cons.mp h with h | h
      · exact absurd h (by decide)
      · exact had h
  have hsp : splitOnChar '@' ((u ++ ':' :: d) ++ '@' :: srv) = [u ++ ':' :: d, srv] := by
    rw [splitOnChar_append srv hp0, splitOnChar_of_not_mem has]
  have hcolon : ':' ∈ u ++ ':' :: d :=
    List.mem_append.mpr (Or.inr (List.mem_cons_self _ _))
  have hdot : '.' ∉ u ++ ':' :: d := by
    intro hm
    rcases List.mem_append.mp hm with h | h
    · exact hdu h
    · rcases List.mem_cons.mp h with h | h
      · exact absurd h (by decide)
      · exact hdd h
  constructor
  · intro hdef
    subst hdef
    simp only [parse_jid, hsp, if_pos hcolon, if_pos rfl, if_neg hdot,
      splitOnChar_append d hcu]
    rfl
  · intro hsrv
    simp only [parse_jid, hsp, if_pos hcolon, if_neg hsrv]

/-- C8, witness: the amended statement at `"123:4@s.whatsapp.net"` (suffix
dropped) — its hypotheses discharged by computation. -/
theorem parse_device_suffix_default_server_only_witness :
    parse_jid (("123".toList ++ ':' :: "4".toList) ++ '@' :: DefaultUserServer) =
      Except.ok (new_jid "123".toList DefaultUserServer) :=
  (parse_device_suffix_default_server_only "123".toList "4".toList DefaultUserServer
    (by decide) (by decide) (by decide) (by decide) (by decide) (by decide)).1 rfl

/-! ## Claim C10 -/

/-- C10: `normalize_jid` on a string is total and, whenever parsing fails, it
returns the input unchanged — malformed address strings pass through
normalization verbatim. -/
theorem normalize_jid_total_passthrough :
    ∀ s : PyStr, (parse_jid s).isOk = false → normalize_jid s = s := by
  intro s h
  cases hp : parse_jid s with
  | ok j => rw [hp] at h; exact absurd h (by simp [except_error_isOk, except_ok_isOk, except_error_toBool, except_ok_toBool])
  | error e => simp only [normalize_jid, hp]

/-- C10, witness: the unparseable string `"invalid"` passes through
unchanged. -/
theorem normalize_jid_total_passthrough_witness :
    normalize_jid "invalid".toList = "invalid".toList :=
  normalize_jid_total_passthrough "invalid".toList (by decide)

/-! ## Claim C9 -/

theorem parse_ad_jid_isOk_iff (l : PyStr) :
    (parse_ad_jid l).isOk = !adFailCond l := by
  cases hd : pyFind '.' l with
  | none => cases hc : pyFind ':' l <;> simp [parse_ad_jid, adFailCond, hd, hc, except_error_isOk, except_ok_isOk, except_error_toBool, except_ok_toBool]
  | some d =>
    cases hc : pyFind ':' l with
    | none => simp [parse_ad_jid, adFailCond, hd, hc, except_error_isOk, except_ok_isOk, except_error_toBool, except_ok_toBool]
    | some c =>
      simp only [parse_ad_jid, adFailCond, hd, hc]
      by_cases hord : c + 1 ≤ d
      · simp [hord, except_error_isOk, except_ok_isOk, except_error_toBool, except_ok_toBool]
      · simp only [if_neg hord, decide_eq_true_eq]
        cases ha : pyInt? ((l.drop (d + 1)).take (c - (d + 1))) with
        | none => simp [byteFieldBad, ha, except_error_toBool, except_ok_toBool, except_error_isOk, except_ok_isOk, hord]
        | some a =>
          by_cases hra : a < 0 ∨ 255 < a
          · simp [byteFieldBad, ha, hra, except_error_toBool, except_ok_toBool, except_error_isOk, except_ok_isOk, hord]
          · cases hdev : pyInt? (l.drop (c + 1)) with
            | none => simp [byteFieldBad, ha, hdev, hra, except_error_toBool, except_ok_toBool, except_error_isOk, except_ok_isOk, hord]
            | some dev =>
              by_cases hrd : dev < 0 ∨ 255 < dev
              · simp [byteFieldBad, ha, hdev, hra, hrd, except_error_toBool, except_ok_toBool, except_error_isOk, except_ok_isOk, hord]
              · simp [byteFieldBad, ha, hdev, hra, hrd, except_error_toBool, except_ok_toBool, except_error_isOk, except_ok_isOk, hord]

/-- C9: `parse_jid` fails exactly when the input has no `'@'` and its left
side is not purely numeric, or the extended (ad) form is attempted (a `':'`
and a `'.'` in the left part with the default user server after the `'@'`)
and its `'.'`/`':'` separators are missing or out of order, or its agent or
device value is non-numeric or outside `[0, 255]`; and a bare purely-numeric
string with no `'@'` is accepted as `user@<default-user-server>`. -/
theorem parse_jid_failure_characterization :
    ∀ s : PyStr,
      ((parse_jid s).isOk = false ↔ parseFailCond s = true) ∧
      ('@' ∉ s → pyIsNumeric s = true →
        parse_jid s = Except.ok (new_jid s DefaultUserServer)) := by
  intro s
  cases hsp : splitOnChar '@' s with
  | nil => exact absurd hsp (splitOnChar_ne_nil '@' s)
  | cons p0 ps =>
    cases ps with
    | nil =>
      obtain ⟨hnm, hps⟩ := eq_singleton_splitOnChar hsp
      subst hps
      constructor
      · by_cases hnum : pyIsNumeric p0
        · simp [parse_jid, hsp, parseFailCond, hnum, hnm, except_error_isOk,
            except_ok_isOk, except_error_toBool, except_ok_toBool]
        · simp [parse_jid, hsp, parseFailCond, hnum, hnm, except_error_isOk,
            except_ok_isOk, except_error_toBool, except_ok_toBool]
      · intro _ hnum
        simp only [parse_jid, hsp, if_pos hnum]
    | cons p1 rest =>
      have hmem : '@' ∈ s := by
        by_contra hnm
        have h1 := splitOnChar_of_not_mem hnm
        rw [hsp] at h1
        simp at h1
      have hleft : leftPart s = p0 := by simp [leftPart, hsp]
      have hsecond : secondPart s = p1 := by simp [secondPart, hsp]
      refine ⟨?_, fun hn => absurd hmem hn⟩
      by_cases hcolon : ':' ∈ p0
      · by_cases hdef : p1 = DefaultUserServer
        · by_cases hdot : '.' ∈ p0
          · have hok := parse_ad_jid_isOk_iff p0
            simp [parse_jid, hsp, parseFailCond, hleft, hsecond, hcolon, hdef,
              hdot, hmem, hok]
          · simp [parse_jid, hsp, parseFailCond, hleft, hsecond, hcolon, hdef,
              hdot, hmem, except_error_isOk, except_ok_isOk, except_error_toBool, except_ok_toBool]
        · simp [parse_jid, hsp, parseFailCond, hleft, hsecond, hcolon, hdef,
            hmem, except_error_isOk, except_ok_isOk, except_error_toBool, except_ok_toBool]
      · simp [parse_jid, hsp, parseFailCond, hleft, hsecond, hcolon, hmem,
          except_error_isOk, except_ok_isOk, except_error_toBool, except_ok_toBool]

/-- C9, witness: the characterization applied to concrete inputs — the bare
numeric `"123"` parses as `123@s.whatsapp.net`, and `"not-a-number"` (no
`'@'`, non-numeric left side) fails. -/
theorem parse_jid_failure_characterization_witness :
    parse_jid "123".toList = Except.ok (new_jid "123".toList DefaultUserServer) ∧
    (parse_jid "not-a-number".toList).isOk = false := by
  constructor
  · exact (parse_jid_failure_characterization "123".toList).2 (by decide) (by decide)
  · exact (parse_jid_failure_characterization "not-a-number".toList).1.mpr (by decide)

/-! ## Lemmas on the single-statement upsert -/

theorem countKey_eq_zero_of_any_false {K V : Type} [DecidableEq K] {k : K}
    {t : List (K × V)} (h : (t.any fun r => decide (r.1 = k)) = false) :
    countKey k t = 0 := by
  induction t with
  | nil => rfl
  | cons a t ih =>
    simp only [List.any_cons, Bool.or_eq_false_iff] at h
    simp only [countKey, List.filter_cons, h.1]
    exact ih h.2

theorem countKey_append_self {K V : Type} [DecidableEq K] (k : K) (v : V)
    (t : List (K × V)) : countKey k (t ++ [(k, v)]) = countKey k t + 1 := by
  simp [countKey, List.filter_append]

theorem countKey_map_upsert {K V : Type} [DecidableEq K] (k : K) (v : V)
    (t : List (K × V)) :
    countKey k (t.map fun r => if r.1 = k then (k, v) else r) = countKey k t := by
  induction t with
  | nil => rfl
  | cons a t ih =>
    rw [List.map_cons]
    by_cases ha : a.1 = k
    · rw [if_pos ha]
      simp only [countKey] at ih ⊢
      simp [List.filter_cons, ha, ih]
    · have hp : (decide (a.1 = k)) = false := by simp [ha]
      rw [if_neg ha]
      simp only [countKey, List.filter_cons, hp, Bool.false_eq_true, if_false]
      exact ih

theorem one_le_countKey_of_any {K V : Type} [DecidableEq K] {k : K}
    {t : List (K × V)} (h : (t.any fun r => decide (r.1 = k)) = true) :
    1 ≤ countKey k t := by
  induction t with
  | nil => simp at h
  | cons a t ih =>
    by_cases ha : a.1 = k
    · have hpa : (decide (a.1 = k)) = true := by simp [ha]
      simp [countKey, List.filter_cons, hpa]
    · have hpa : (decide (a.1 = k)) = false := by simp [ha]
      simp only [countKey, List.filter_cons, hpa, Bool.false_eq_true, if_false]
      simp only [List.any_cons, hpa, Bool.false_or] at h
      exact ih h

theorem countKey_eq_zero_of_not_mem_keys {K V : Type} [DecidableEq K] {k : K}
    {t : List (K × V)} (h : k ∉ t.map Prod.fst) : countKey k t = 0 := by
  induction t with
  | nil => rfl
  | cons a t ih =>
    simp only [List.map_cons, List.mem_cons, not_or] at h
    have ha : (decide (a.1 = k)) = false := by
      simp only [decide_eq_false_iff_not]
      exact fun hc => h.1 hc.symm
    simp only [countKey, List.filter_cons, ha, Bool.false_eq_true, if_false]
    exact ih h.2

theorem countKey_le_one_of_nodup {K V : Type} [DecidableEq K] (k : K)
    {t : List (K × V)} (h : keysNodup t) : countKey k t ≤ 1 := by
  induction t with
  | nil => simp [countKey]
  | cons a t ih =>
    rw [keysNodup, List.map_cons, List.nodup_cons] at h
    by_cases ha : a.1 = k
    · have h0 : countKey k t = 0 := countKey_eq_zero_of_not_mem_keys (ha ▸ h.1)
      have hpa : (decide (a.1 = k)) = true := by simp [ha]
      simp only [countKey, List.filter_cons, hpa, if_true, List.length_cons]
      simp only [countKey] at h0
      omega
    · have hpa : (decide (a.1 = k)) = false := by simp [ha]
      simp only [countKey, List.filter_cons, hpa, Bool.false_eq_true, if_false]
      exact ih h.2

theorem find?_map_upsert {K V : Type} [DecidableEq K] {k : K} (v : V)
    {t : List (K × V)} (h : (t.any fun r => decide (r.1 = k)) = true) :
    (t.map fun r => if r.1 = k then (k, v) else r).find?
      (fun r => decide (r.1 = k)) = some (k, v) := by
  induction t with
  | nil => simp at h
  | cons a t ih =>
    by_cases ha : a.1 = k
    · rw [List.map_cons, if_pos ha, List.find?_cons_of_pos _ (by simp)]
    · rw [List.map_cons, if_neg ha, List.find?_cons_of_neg _ (by simp [ha])]
      simp only [List.any_cons, Bool.or_eq_true, decide_eq_true_eq] at h
      rcases h with h | h
      · exact absurd h ha
      · exact ih h

theorem find?_append_upsert {K V : Type} [DecidableEq K] {k : K} (v : V)
    {t : List (K × V)} (h : (t.any fun r => decide (r.1 = k)) = false) :
    (t ++ [(k, v)]).find? (fun r => decide (r.1 = k)) = some (k, v) := by
  induction t with
  | nil => simp [List.find?]
  | cons a t ih =>
    simp only [List.any_cons, Bool.or_eq_false_iff] at h
    rw [List.cons_append, List.find?_cons_of_neg _ (by simp [h.1])]
    exact ih h.2

theorem lookupKey_upsertPair_self {K V : Type} [DecidableEq K]
    (t : List (K × V)) (k : K) (v : V) :
    lookupKey k (upsertPair t (k, v)) = some v := by
  rw [upsertPair, execUpsertBy]
  cases hany : (t.any fun r => decide (r.1 = (k, v).1)) with
  | true =>
    simp only [hany, if_true, lookupKey]
    rw [find?_map_upsert v (by simpa using hany)]
    rfl
  | false =>
    simp only [hany, Bool.false_eq_true, if_false, lookupKey]
    rw [find?_append_upsert v (by simpa using hany)]
    rfl

theorem countKey_upsertPair_self {K V : Type} [DecidableEq K]
    {t : List (K × V)} (h : keysNodup t) (k : K) (v : V) :
    countKey k (upsertPair t (k, v)) = 1 := by
  rw [upsertPair, execUpsertBy]
  cases hany : (t.any fun r => decide (r.1 = (k, v).1)) with
  | true =>
    simp only [hany, if_true]
    rw [countKey_map_upsert]
    have h1 : 1 ≤ countKey k t := one_le_countKey_of_any (by simpa using hany)
    have h2 : countKey k t ≤ 1 := countKey_le_one_of_nodup k h
    omega
  | false =>
    simp only [hany, Bool.false_eq_true, if_false]
    rw [countKey_append_self, countKey_eq_zero_of_any_false (by simpa using hany)]

theorem find?_map_upsert_ne {K V : Type} [DecidableEq K] {k q : K} (v : V)
    (hq : q ≠ k) (t : List (K × V)) :
    (t.map fun r => if r.1 = k then (k, v) else r).find? (fun r => decide (r.1 = q)) =
      t.find? (fun r => decide (r.1 = q)) := by
  induction t with
  | nil => rfl
  | cons a t ih =>
    rw [List.map_cons]
    by_cases ha : a.1 = k
    · have haq : ¬ a.1 = q := by rw [ha]; exact fun hc => hq hc.symm
      have hkq : ¬ ((k, v) : K × V).1 = q := by exact fun hc => hq hc.symm
      rw [if_pos ha, List.find?_cons_of_neg _ (by simp [hkq]),
        List.find?_cons_of_neg _ (by simp [haq])]
      exact ih
    · rw [if_neg ha]
      by_cases haq : a.1 = q
      · rw [List.find?_cons_of_pos _ (by simp [haq]),
          List.find?_cons_of_pos _ (by simp [haq])]
      · rw [List.find?_cons_of_neg _ (by simp [haq]),
          List.find?_cons_of_neg _ (by simp [haq])]
        exact ih

theorem find?_append_ne {K V : Type} [DecidableEq K] {k q : K} (v : V)
    (hq : q ≠ k) (t : List (K × V)) :
    (t ++ [(k, v)]).find? (fun r => decide (r.1 = q)) =
      t.find? (fun r => decide (r.1 = q)) := by
  induction t with
  | nil =>
    rw [List.nil_append,
      List.find?_cons_of_neg _ (by simp; exact fun hc => hq hc.symm)]
  | cons a t ih =>
    by_cases haq : a.1 = q
    · rw [List.cons_append, List.find?_cons_of_pos _ (by simp [haq]),
        List.find?_cons_of_pos _ (by simp [haq])]
    · rw [List.cons_append, List.find?_cons_of_neg _ (by simp [haq]),
        List.find?_cons_of_neg _ (by simp [haq])]
      exact ih

theorem lookupKey_upsertPair_ne {K V : Type} [DecidableEq K]
    (t : List (K × V)) (k : K) (v : V) {q : K} (hq : q ≠ k) :
    lookupKey q (upsertPair t (k, v)) = lookupKey q t := by
  rw [upsertPair, execUpsertBy]
  cases hany : (t.any fun r => decide (r.1 = (k, v).1)) with
  | true =>
    simp only [hany, if_true, lookupKey]
    rw [find?_map_upsert_ne v hq]
  | false =>
    simp only [hany, Bool.false_eq_true, if_false, lookupKey]
    rw [find?_append_ne v hq]

theorem countKey_map_upsert_ne {K V : Type} [DecidableEq K] {k q : K} (v : V)
    (hq : q ≠ k) (t : List (K × V)) :
    countKey q (t.map fun r => if r.1 = k then (k, v) else r) = countKey q t := by
  induction t with
  | nil => rfl
  | cons a t ih =>
    rw [List.map_cons]
    by_cases ha : a.1 = k
    · have haq : (decide (a.1 = q)) = false := by
        simp only [decide_eq_false_iff_not]
        rw [ha]; exact fun hc => hq hc.symm
      have hkq : (decide (((k, v) : K × V).1 = q)) = false := by
        simp only [decide_eq_false_iff_not]
        exact fun hc => hq hc.symm
      rw [if_pos ha]
      simp only [countKey, List.filter_cons, haq, hkq, Bool.false_eq_true, if_false]
      exact ih
    · rw [if_neg ha]
      by_cases haq : a.1 = q
      · have hp : (decide (a.1 = q)) = true := by simp [haq]
        simp only [countKey, List.filter_cons, hp, if_true, List.length_cons]
        simp only [countKey] at ih
        omega
      · have hp : (decide (a.1 = q)) = false := by simp [haq]
        simp only [countKey, List.filter_cons, hp, Bool.false_eq_true, if_false]
        exact ih

theorem countKey_upsertPair_ne {K V : Type} [DecidableEq K]
    (t : List (K × V)) (k : K) (v : V) {q : K} (hq : q ≠ k) :
    countKey q (upsertPair t (k, v)) = countKey q t := by
  rw [upsertPair, execUpsertBy]
  cases hany : (t.any fun r => decide (r.1 = (k, v).1)) with
  | true =>
    simp only [hany, if_true]
    rw [countKey_map_upsert_ne v hq]
  | false =>
    have hkq : (decide (((k, v) : K × V).1 = q)) = false := by
      simp only [decide_eq_false_iff_not]
      exact fun hc => hq hc.symm
    simp only [hany, Bool.false_eq_true, if_false, countKey, List.filter_append,
      List.filter_cons, hkq, List.filter_nil, List.append_nil]

theorem keys_map_upsert {K V : Type} [DecidableEq K] (k : K) (v : V)
    (t : List (K × V)) :
    (t.map fun r => if r.1 = k then (k, v) else r).map Prod.fst = t.map Prod.fst := by
  induction t with
  | nil => rfl
  | cons a t ih =>
    rw [List.map_cons]
    by_cases ha : a.1 = k
    · rw [if_pos ha]
      simp only [List.map_cons, ih, ha]
    · rw [if_neg ha]
      simp only [List.map_cons, ih]

theorem keysNodup_upsertPair {K V : Type} [DecidableEq K]
    {t : List (K × V)} (h : keysNodup t) (k : K) (v : V) :
    keysNodup (upsertPair t (k, v)) := by
  rw [upsertPair, execUpsertBy]
  cases hany : (t.any fun r => decide (r.1 = (k, v).1)) with
  | true =>
    simp only [hany, if_true, keysNodup, keys_map_upsert]
    exact h
  | false =>
    simp only [hany, Bool.false_eq_true, if_false, keysNodup, List.map_append]
    rw [List.nodup_append]
    refine ⟨h, by simp, ?_⟩
    intro x hx
    simp only [List.map_cons, List.map_nil, List.mem_singleton]
    intro hxk
    subst hxk
    have h0 : countKey x t = 0 := countKey_eq_zero_of_any_false (by simpa using hany)
    obtain ⟨r, hr, hrx⟩ := List.mem_map.mp hx
    have hmem : r ∈ t.filter (fun r => decide (r.1 = x)) :=
      List.mem_filter.mpr ⟨hr, by simp [hrx]⟩
    rw [countKey, List.length_eq_zero] at h0
    rw [h0] at hmem
    simp at hmem

/-! ## Claim C1 -/

/-- C1: `upsert` is issued as one `INSERT .. ON CONFLICT (pk) DO UPDATE`
statement (the definition of `upsertPair`/`execUpsertBy` — no
read-then-branch-then-write); calling it twice with the same primary key
(or once when a row with that key already exists) leaves exactly one row
keyed by that key, whose non-key columns are the values supplied by the
second (latest) call, and rows under every other key are untouched. -/
theorem upsert_single_statement_last_write_wins :
    ∀ {K V : Type} [DecidableEq K] (t : List (K × V)) (k : K) (v1 v2 : V),
      keysNodup t →
      countKey k (upsertPair (upsertPair t (k, v1)) (k, v2)) = 1 ∧
      lookupKey k (upsertPair (upsertPair t (k, v1)) (k, v2)) = some v2 ∧
      (∀ q, q ≠ k →
        lookupKey q (upsertPair (upsertPair t (k, v1)) (k, v2)) = lookupKey q t ∧
        countKey q (upsertPair (upsertPair t (k, v1)) (k, v2)) = countKey q t) ∧
      (countKey k (upsertPair t (k, v2)) = 1 ∧
       lookupKey k (upsertPair t (k, v2)) = some v2) := by
  intro K V _ t k v1 v2 h
  have h1 : keysNodup (upsertPair t (k, v1)) := keysNodup_upsertPair h k v1
  refine ⟨countKey_upsertPair_self h1 k v2, lookupKey_upsertPair_self _ k v2,
    ?_, countKey_upsertPair_self h k v2, lookupKey_upsertPair_self _ k v2⟩
  intro q hq
  constructor
  · rw [lookupKey_upsertPair_ne _ k v2 hq, lookupKey_upsertPair_ne _ k v1 hq]
  · rw [countKey_upsertPair_ne _ k v2 hq, countKey_upsertPair_ne _ k v1 hq]

/-- C1, witness: two upserts under key `1` on a concrete two-row table. -/
theorem upsert_single_statement_last_write_wins_witness :
    countKey 1 (upsertPair (upsertPair [((1 : Nat), (10 : Nat)), (2, 7)] (1, 20)) (1, 30)) = 1 ∧
    lookupKey 1 (upsertPair (upsertPair [((1 : Nat), (10 : Nat)), (2, 7)] (1, 20)) (1, 30)) =
      some 30 ∧
    lookupKey 2 (upsertPair (upsertPair [((1 : Nat), (10 : Nat)), (2, 7)] (1, 20)) (1, 30)) =
      lookupKey 2 [((1 : Nat), (10 : Nat)), (2, 7)] := by
  have h := upsert_single_statement_last_write_wins
    [((1 : Nat), (10 : Nat)), (2, 7)] 1 20 30 (by decide)
  exact ⟨h.1, h.2.1, (h.2.2.1 2 (by decide)).1⟩

/-! ## Claim C5 -/

theorem truthyKeys_of_overlap {x y : Option (List PyStr)}
    (h : keysOverlap x y = true) : truthyKeys y = true := by
  cases x with
  | none => simp [keysOverlap] at h
  | some a =>
    cases y with
    | none => simp [keysOverlap] at h
    | some b =>
      obtain ⟨k, _, hkb⟩ := List.any_eq_true.mp h
      cases b with
      | nil => simp at hkb
      | cons c cs => rfl

theorem retrieveTopics_eq_of_selectFrom {db : DB} {scope : Option GroupRow}
    {gs : List GroupRow} (q : List ℚ)
    (h : selectFromGroups db scope = some gs) :
    retrieveTopics db scope q =
      ((db.topics.filter fun t =>
        match t.group_jid with
        | some j => gs.any (fun g => decide (g.group_jid = j))
        | none => false).mergeSort (topicLE q)).take 5 := by
  rw [retrieveTopics, h]

/-- The candidate-group condition of a retrieval scoped to `g`: the group `g`
itself, or a group of the store sharing a community key with `g`. -/
theorem mem_selectFromGroups_iff (db : DB) (g : GroupRow) (j : PyStr) :
    (∃ gr ∈ (selectFromGroups db (some g)).getD [], gr.group_jid = j) ↔
      (j = g.group_jid ∨ ∃ g' ∈ db.groups, g'.group_jid = j ∧ j ≠ g.group_jid ∧
        keysOverlap g'.community_keys g.community_keys = true) := by
  simp only [selectFromGroups, Option.getD_some]
  constructor
  · rintro ⟨gr, hgr, rfl⟩
    rcases List.mem_cons.mp hgr with h | h
    · exact Or.inl (by rw [h])
    · by_cases htk : truthyKeys g.community_keys
      · rw [if_pos htk] at h
        rw [get_related_community_groups, if_neg (by simp [htk])] at h
        obtain ⟨hmem, hcond⟩ := List.mem_filter.mp h
        rw [Bool.and_eq_true, decide_eq_true_eq] at hcond
        exact Or.inr ⟨gr, hmem, rfl, hcond.1, hcond.2⟩
      · rw [if_neg htk] at h
        simp at h
  · rintro (rfl | ⟨g', hg'm, rfl, hne, hov⟩)
    · exact ⟨g, List.mem_cons_self _ _, rfl⟩
    · have htk : truthyKeys g.community_keys = true := truthyKeys_of_overlap hov
      refine ⟨g', List.mem_cons.mpr (Or.inr ?_), rfl⟩
      rw [if_pos htk, get_related_community_groups, if_neg (by simp [htk])]
      exact List.mem_filter.mpr ⟨hg'm, by simp [hne, hov]⟩

/-- C5: a retrieval scoped to group `G1` draws topics only from the candidate
set consisting of exactly `G1` plus the groups sharing a community key with
`G1` (every other group excluded); a topic of a group `G3` sharing no key with
`G1` is never returned; with no scope group, no group filter is applied. -/
theorem scoped_retrieval_candidate_groups :
    ∀ (db : DB) (g : GroupRow) (q : List ℚ),
      (∀ j, (∃ gr ∈ (selectFromGroups db (some g)).getD [], gr.group_jid = j) ↔
        (j = g.group_jid ∨ ∃ g' ∈ db.groups, g'.group_jid = j ∧ j ≠ g.group_jid ∧
          keysOverlap g'.community_keys g.community_keys = true)) ∧
      (∀ t ∈ retrieveTopics db (some g) q, ∃ j, t.group_jid = some j ∧
        (j = g.group_jid ∨ ∃ g' ∈ db.groups, g'.group_jid = j ∧ j ≠ g.group_jid ∧
          keysOverlap g'.community_keys g.community_keys = true)) ∧
      (∀ t g3, (db.groups.map GroupRow.group_jid).Nodup → g3 ∈ db.groups →
        keysOverlap g3.community_keys g.community_keys = false →
        g3.group_jid ≠ g.group_jid →
        t ∈ retrieveTopics db (some g) q → t.group_jid ≠ some g3.group_jid) ∧
      retrieveTopics db none q = (db.topics.mergeSort (topicLE q)).take 5 := by
  intro db g q
  have hmemiff := mem_selectFromGroups_iff db g
  have hb : ∀ t ∈ retrieveTopics db (some g) q, ∃ j, t.group_jid = some j ∧
      (j = g.group_jid ∨ ∃ g' ∈ db.groups, g'.group_jid = j ∧ j ≠ g.group_jid ∧
        keysOverlap g'.community_keys g.community_keys = true) := by
    intro t ht
    rw [retrieveTopics] at ht
    have ht2 := List.mem_mergeSort.mp (List.take_subset 5 _ ht)
    obtain ⟨_, hcond⟩ := List.mem_filter.mp ht2
    cases hgj : t.group_jid with
    | none => rw [hgj] at hcond; simp at hcond
    | some j =>
      rw [hgj] at hcond
      obtain ⟨gr, hgrm, hgrj⟩ := List.any_eq_true.mp hcond
      rw [decide_eq_true_eq] at hgrj
      exact ⟨j, rfl, (hmemiff j).mp ⟨gr, by simpa [selectFromGroups] using hgrm, hgrj⟩⟩
  refine ⟨hmemiff, hb, ?_, rfl⟩
  intro t g3 hnd hg3m hov hne ht hcontra
  obtain ⟨j, hj, hcase⟩ := hb t ht
  rw [hcontra] at hj
  cases hj
  rcases hcase with h | ⟨g', hg'm, hg'j, _, hov'⟩
  · exact hne h
  · have : g' = g3 := List.inj_on_of_nodup_map hnd hg'm hg3m hg'j
    rw [this] at hov'
    rw [hov] at hov'
    cases hov'

/-- C5, witness: a concrete two-group store — the scope group (key
`family2024`) and an unrelated group `G3` — where the sole retrieved topic
belongs to the scope group, so its `group_jid` differs from `G3`'s. -/
theorem scoped_retrieval_candidate_groups_witness :
    ({ id := "t1".toList, group_jid := some "1@g.us".toList,
       embedding := [0] } : KBTopicRow).group_jid ≠ some "3@g.us".toList := by
  have h := (scoped_retrieval_candidate_groups
    { groups := [{ group_jid := "1@g.us".toList,
                   community_keys := some ["family2024".toList] },
                 { group_jid := "3@g.us".toList,
                   community_keys := some ["other".toList] }],
      topics := [{ id := "t1".toList, group_jid := some "1@g.us".toList,
                   embedding := [0] }] }
    { group_jid := "1@g.us".toList, community_keys := some ["family2024".toList] }
    [0]).2.2.1
  have hsel : selectFromGroups
      { groups := [{ group_jid := "1@g.us".toList,
                     community_keys := some ["family2024".toList] },
                   { group_jid := "3@g.us".toList,
                     community_keys := some ["other".toList] }],
        topics := [{ id := "t1".toList, group_jid := some "1@g.us".toList,
                     embedding := [0] }] }
      (some { group_jid := "1@g.us".toList,
              community_keys := some ["family2024".toList] }) =
      some [{ group_jid := "1@g.us".toList,
              community_keys := some ["family2024".toList] }] := by decide
  have hret : retrieveTopics
      { groups := [{ group_jid := "1@g.us".toList,
                     community_keys := some ["family2024".toList] },
                   { group_jid := "3@g.us".toList,
                     community_keys := some ["other".toList] }],
        topics := [{ id := "t1".toList, group_jid := some "1@g.us".toList,
                     embedding := [0] }] }
      (some { group_jid := "1@g.us".toList,
              community_keys := some ["family2024".toList] })
      [0] =
      [{ id := "t1".toList, group_jid := some "1@g.us".toList, embedding := [0] }] := by
    rw [retrieveTopics_eq_of_selectFrom [0] hsel, List.filter_cons, List.filter_nil,
      if_pos (by decide), List.mergeSort_singleton]
    rfl
  have h2 := h { id := "t1".toList, group_jid := some "1@g.us".toList,
                 embedding := [0] }
    { group_jid := "3@g.us".toList, community_keys := some ["other".toList] }
    (by decide) (by decide) (by decide) (by decide)
    (by rw [hret]; exact List.mem_singleton.mpr rfl)
  simpa using h2

/-! ## Claim C6 -/

theorem retryFrom_first_success {E A : Type} (call : Nat → Except E A) :
    ∀ (r k N : Nat) (a : A), k ≤ N → N ≤ k + r - 1 → 1 ≤ r →
      (∀ i, k ≤ i → i < N → ∃ e, call i = Except.error e) →
      call N = Except.ok a → retryFrom call k r = Except.ok a := by
  intro r
  induction r with
  | zero => intro k N a _ _ h1 _ _; omega
  | succ r ih =>
    intro k N a hkN hNr _ hfail hok
    cases r with
    | zero =>
      have : N = k := by omega
      subst this
      rw [retryFrom]
      exact hok
    | succ r' =>
      by_cases hk : k = N
      · subst hk
        rw [retryFrom, hok]
      · obtain ⟨e, he⟩ := hfail k (le_refl k) (by omega)
        rw [retryFrom, he]
        exact ih (k + 1) N a (by omega) (by omega) (by omega)
          (fun i hi1 hi2 => hfail i (by omega) hi2) hok

theorem retryFrom_all_fail {E A : Type} (call : Nat → Except E A) :
    ∀ (r k : Nat), 1 ≤ r →
      (∀ i, k ≤ i → i ≤ k + r - 1 → ∃ e, call i = Except.error e) →
      retryFrom call k r = call (k + r - 1) := by
  intro r
  induction r with
  | zero => intro k h1 _; omega
  | succ r ih =>
    intro k _ hfail
    cases r with
    | zero => rw [show k + (0 + 1) - 1 = k from by omega, retryFrom]
    | succ r' =>
      obtain ⟨e, he⟩ := hfail k (le_refl k) (by omega)
      rw [retryFrom, he]
      rw [ih (k + 1) (by omega) (fun i hi1 hi2 => hfail i (by omega) (by omega))]
      rw [show k + 1 + (r' + 1) - 1 = k + (r' + 1 + 1) - 1 from by omega]

/-- C6: the Generation/Embedding agent calls are wrapped in the retry policy
of `knowledge_base_answers.py` — up to 6 attempts, randomized waits bounded by
the configured 1s/30s window, `reraise=True`.  A call that fails on attempts
`1..N-1` and succeeds on attempt `N ≤ 6` yields the successful result; a call
failing on all 6 attempts propagates the final (6th) failure; every backoff
wait lies between 1 and 30 seconds; and after exhaustion the conversation
receives the fallback reply, not a crash. -/
theorem retry_policy_bounded_attempts_and_fallback :
    (generationAgentRetry = rephrasingAgentRetry ∧
     generationAgentRetry.maxAttempts = 6 ∧ generationAgentRetry.reraise = true) ∧
    (∀ (E A : Type) (call : Nat → Except E A) (N : Nat) (a : A),
      1 ≤ N → N ≤ generationAgentRetry.maxAttempts →
      (∀ i, 1 ≤ i → i < N → ∃ e, call i = Except.error e) →
      call N = Except.ok a →
      retryRun generationAgentRetry call = Except.ok a) ∧
    (∀ (E A : Type) (call : Nat → Except E A),
      (∀ i, 1 ≤ i → i ≤ generationAgentRetry.maxAttempts → ∃ e, call i = Except.error e) →
      retryRun generationAgentRetry call = call generationAgentRetry.maxAttempts) ∧
    (∀ (attempt : Nat) (u : ℚ), 0 ≤ u → u ≤ 1 →
      1 ≤ backoffWait generationAgentRetry attempt u ∧
      backoffWait generationAgentRetry attempt u ≤ 30) ∧
    (∀ (E : Type) (call : Nat → Except E PyStr) (fb : PyStr),
      (∀ i, 1 ≤ i → i ≤ generationAgentRetry.maxAttempts → ∃ e, call i = Except.error e) →
      answerWithFallback generationAgentRetry call fb = fb) := by
  have hall : ∀ (E A : Type) (call : Nat → Except E A),
      (∀ i, 1 ≤ i → i ≤ generationAgentRetry.maxAttempts → ∃ e, call i = Except.error e) →
      retryRun generationAgentRetry call = call generationAgentRetry.maxAttempts := by
    intro E A call hfail
    show retryFrom call 1 6 = call 6
    have hfail6 : ∀ i, 1 ≤ i → i ≤ 1 + 6 - 1 → ∃ e, call i = Except.error e :=
      fun i h1 h2 => hfail i h1 (by simpa [generationAgentRetry] using h2)
    rw [retryFrom_all_fail call 6 1 (by omega) hfail6]
  refine ⟨⟨rfl, rfl, rfl⟩, ?_, hall, ?_, ?_⟩
  · intro E A call N a h1 h6 hfail hok
    have h6' : N ≤ 6 := by simpa [generationAgentRetry] using h6
    show retryFrom call 1 6 = Except.ok a
    exact retryFrom_first_success call 6 1 N a h1 (by omega) (by omega)
      (fun i hi1 hi2 => hfail i hi1 hi2) hok
  · intro attempt u hu0 hu1
    rw [backoffWait]
    simp only [generationAgentRetry]
    have hc1 : (1 : ℚ) ≤ min (30 : ℚ) (1 * 2 ^ (attempt - 1)) := by
      apply le_min
      · norm_num
      · rw [one_mul]
        exact_mod_cast Nat.one_le_two_pow
    have hc2 : min (30 : ℚ) (1 * 2 ^ (attempt - 1)) ≤ 30 := min_le_left _ _
    constructor
    · have : 0 ≤ u * (min (30 : ℚ) (1 * 2 ^ (attempt - 1)) - 1) :=
        mul_nonneg hu0 (by linarith)
      show (1 : ℚ) + u * _ ≥ 1
      linarith
    · have : u * (min (30 : ℚ) (1 * 2 ^ (attempt - 1)) - 1) ≤
          min (30 : ℚ) (1 * 2 ^ (attempt - 1)) - 1 := by
        nlinarith
      show (1 : ℚ) + u * _ ≤ 30
      linarith
  · intro E call fb hfail
    rw [answerWithFallback, hall E PyStr call hfail]
    obtain ⟨e, he⟩ := hfail 6 (by omega) (by simp [generationAgentRetry])
    show (match call 6 with
      | Except.ok a => a
      | Except.error _ => fb) = fb
    simp only [he]

/-- C6, witness: a call failing on attempts 1-2 and succeeding on attempt 3
returns the attempt-3 result under the configured policy. -/
theorem retry_policy_bounded_attempts_and_fallback_witness :
    retryRun generationAgentRetry
      (fun i => if i < 3 then Except.error "transient" else Except.ok (42 : Nat)) =
      Except.ok 42 := by
  refine retry_policy_bounded_attempts_and_fallback.2.1 String Nat _ 3 42
    (by omega) (by norm_num [generationAgentRetry]) ?_ (by norm_num)
  intro i h1 h2
  exact ⟨"transient", by have : i < 3 := h2; simp [this]⟩

/-! ## Lemmas on the ingestion unit -/

theorem any_key_map_execUpsert {α K : Type} [DecidableEq K] (key : α → K) (a : α)
    (t : List α) (k : K) :
    ((t.map fun r => if key r = key a then a else r).any fun r => decide (key r = k)) =
      (t.any fun r => decide (key r = k)) := by
  induction t with
  | nil => rfl
  | cons b t ih =>
    rw [List.map_cons, List.any_cons, List.any_cons, ih]
    by_cases hb : key b = key a
    · rw [if_pos hb, hb]
    · rw [if_neg hb]

theorem any_key_execUpsertBy {α K : Type} [DecidableEq K] (key : α → K) (a : α)
    (t : List α) (k : K) :
    ((execUpsertBy key a t).any fun r => decide (key r = k)) =
      ((t.any fun r => decide (key r = k)) || decide (key a = k)) := by
  rw [execUpsertBy]
  cases hc : (t.any fun r => decide (key r = key a)) with
  | true =>
    simp only [hc, if_true, any_key_map_execUpsert]
    by_cases hk : key a = k
    · subst hk
      simp [hc]
    · simp [hk]
  | false =>
    simp only [hc, Bool.false_eq_true, if_false, List.any_append, List.any_cons,
      List.any_nil, Bool.or_false]

theorem upsertSenderRow_ok_shape {db db' : DB} {jid : PyStr} {pn : Option PyStr}
    (h : upsertSenderRow db jid pn = Except.ok db') :
    db'.groups = db.groups ∧ db'.messages = db.messages ∧ db'.topics = db.topics ∧
    db'.senders = execUpsertBy SenderRow.jid
      { jid := normalize_jid jid, push_name := pn } db.senders := by
  simp only [upsertSenderRow] at h
  by_cases h1 : jid.isEmpty
  · rw [if_pos h1] at h; exact Except.noConfusion h
  · rw [if_neg h1] at h
    by_cases h2 : VARCHAR_MAX < (normalize_jid jid).length
    · rw [if_pos h2] at h; exact Except.noConfusion h
    · rw [if_neg h2] at h
      by_cases h3 : optStrTooLong pn = true
      · rw [if_pos h3] at h; exact Except.noConfusion h
      · rw [if_neg h3] at h
        cases h
        exact ⟨rfl, rfl, rfl, rfl⟩

theorem hasSender_of_upsertSenderRow {db db' : DB} {jid : PyStr} {pn : Option PyStr}
    (h : upsertSenderRow db jid pn = Except.ok db') :
    (∀ j, hasSender db j = true → hasSender db' j = true) ∧
    hasSender db' (normalize_jid jid) = true := by
  obtain ⟨_, _, _, hs⟩ := upsertSenderRow_ok_shape h
  constructor
  · intro j hj
    rw [hasSender, hs, any_key_execUpsertBy]
    rw [hasSender] at hj
    rw [hj]
    rfl
  · rw [hasSender, hs, any_key_execUpsertBy]
    simp

theorem upsertGroupRow_ok_shape {db db' : DB} {gjid : PyStr}
    (h : upsertGroupRow db gjid = Except.ok db') :
    db'.senders = db.senders ∧ db'.messages = db.messages ∧ db'.topics = db.topics ∧
    db'.groups = execUpsertBy GroupRow.group_jid
      { group_jid := normalize_jid gjid } db.groups := by
  simp only [upsertGroupRow] at h
  by_cases h1 : gjid.isEmpty
  · rw [if_pos h1] at h; exact Except.noConfusion h
  · rw [if_neg h1] at h
    by_cases h2 : VARCHAR_MAX < (normalize_jid gjid).length
    · rw [if_pos h2] at h; exact Except.noConfusion h
    · rw [if_neg h2] at h
      cases h
      exact ⟨rfl, rfl, rfl, rfl⟩

theorem hasGroup_of_upsertGroupRow {db db' : DB} {gjid : PyStr}
    (h : upsertGroupRow db gjid = Except.ok db') :
    (∀ j, hasGroup db j = true → hasGroup db' j = true) ∧
    hasGroup db' (normalize_jid gjid) = true := by
  obtain ⟨_, _, _, hg⟩ := upsertGroupRow_ok_shape h
  constructor
  · intro j hj
    rw [hasGroup, hg, any_key_execUpsertBy]
    rw [hasGroup] at hj
    rw [hj]
    rfl
  · rw [hasGroup, hg, any_key_execUpsertBy]
    simp

theorem insertMessageRow_ok_shape {db db' : DB} {m : MessageRow}
    (h : insertMessageRow db m = Except.ok db') :
    db'.senders = db.senders ∧ db'.groups = db.groups ∧ db'.topics = db.topics ∧
    db'.messages = db.messages ++ [m] ∧
    hasMessage db m.message_id = false ∧
    hasSender db m.sender_jid = true ∧
    (∀ g, m.group_jid = some g → hasGroup db g = true) := by
  simp only [insertMessageRow] at h
  by_cases h1 : VARCHAR_MAX < m.message_id.length
  · rw [if_pos h1] at h; exact Except.noConfusion h
  · rw [if_neg h1] at h
    by_cases h2 : VARCHAR_MAX < m.chat_jid.length
    · rw [if_pos h2] at h; exact Except.noConfusion h
    · rw [if_neg h2] at h
      by_cases h3 : VARCHAR_MAX < m.sender_jid.length
      · rw [if_pos h3] at h; exact Except.noConfusion h
      · rw [if_neg h3] at h
        by_cases h4 : optStrTooLong m.group_jid = true
        · rw [if_pos h4] at h; exact Except.noConfusion h
        · rw [if_neg h4] at h
          by_cases h5 : hasMessage db m.message_id = true
          · rw [if_pos h5] at h; exact Except.noConfusion h
          · rw [if_neg h5] at h
            by_cases h6 : (!hasSender db m.sender_jid) = true
            · rw [if_pos h6] at h; exact Except.noConfusion h
            · rw [if_neg h6] at h
              by_cases h7 : groupFkMissing db m.group_jid = true
              · rw [if_pos h7] at h; exact Except.noConfusion h
              · rw [if_neg h7] at h
                cases h
                refine ⟨rfl, rfl, rfl, rfl, ?_, ?_, ?_⟩
                · exact Bool.not_eq_true _ ▸ Bool.of_not_eq_true h5
                · have := Bool.of_not_eq_true h6
                  simpa using this
                · intro g hg
                  rw [hg] at h7
                  simp only [groupFkMissing, Bool.not_eq_true,
                    Bool.not_eq_false] at h7
                  simpa using h7

theorem ingestUnit_ok_shape {db db' : DB} {m : MessageRow} {pn : Option PyStr}
    (h : ingestUnit db m pn = Except.ok db') :
    db'.messages = db.messages ++ [m] ∧
    db'.topics = db.topics ∧
    hasMessage db m.message_id = false ∧
    (∀ j, hasSender db j = true → hasSender db' j = true) ∧
    (∀ j, hasGroup db j = true → hasGroup db' j = true) ∧
    hasSender db' m.sender_jid = true ∧
    (∀ g, m.group_jid = some g → hasGroup db' g = true) := by
  rw [ingestUnit] at h
  cases h1 : (if hasSender db m.sender_jid then Except.ok db
      else upsertSenderRow db m.sender_jid pn) with
  | error e => simp only [h1] at h; exact Except.noConfusion h
  | ok db1 =>
    simp only [h1] at h
    have step1 : db1.groups = db.groups ∧ db1.messages = db.messages ∧
        db1.topics = db.topics ∧
        (∀ j, hasSender db j = true → hasSender db1 j = true) ∧
        (∀ j, hasGroup db j = true → hasGroup db1 j = true) := by
      by_cases hs : hasSender db m.sender_jid = true
      · rw [if_pos hs] at h1
        cases h1
        exact ⟨rfl, rfl, rfl, fun _ hj => hj, fun _ hj => hj⟩
      · rw [if_neg hs] at h1
        obtain ⟨hg, hm, ht, _⟩ := upsertSenderRow_ok_shape h1
        refine ⟨hg, hm, ht, (hasSender_of_upsertSenderRow h1).1, ?_⟩
        intro j hj
        rw [hasGroup, hg]
        exact hj
    cases h2 : (match m.group_jid with
        | some g =>
          if g.isEmpty then Except.ok db1
          else if hasGroup db1 g then Except.ok db1
          else upsertGroupRow db1 g
        | none => Except.ok db1) with
    | error e => simp only [h2] at h; exact Except.noConfusion h
    | ok db2 =>
      simp only [h2] at h
      have step2 : db2.senders = db1.senders ∧ db2.messages = db1.messages ∧
          db2.topics = db1.topics ∧
          (∀ j, hasGroup db1 j = true → hasGroup db2 j = true) := by
        cases hgj : m.group_jid with
        | none =>
          simp only [hgj] at h2
          cases h2
          exact ⟨rfl, rfl, rfl, fun _ hj => hj⟩
        | some g =>
          simp only [hgj] at h2
          by_cases hge : g.isEmpty
          · rw [if_pos hge] at h2
            cases h2
            exact ⟨rfl, rfl, rfl, fun _ hj => hj⟩
          · rw [if_neg hge] at h2
            by_cases hhg : hasGroup db1 g = true
            · rw [if_pos hhg] at h2
              cases h2
              exact ⟨rfl, rfl, rfl, fun _ hj => hj⟩
            · rw [if_neg hhg] at h2
              obtain ⟨hsnd, hm, ht, _⟩ := upsertGroupRow_ok_shape h2
              exact ⟨hsnd, hm, ht, (hasGroup_of_upsertGroupRow h2).1⟩
      obtain ⟨hs3, hg3, ht3, hmsg3, hdup, hfk_s, hfk_g⟩ := insertMessageRow_ok_shape h
      refine ⟨?_, ?_, ?_, ?_, ?_, ?_, ?_⟩
      · rw [hmsg3, step2.2.1, step1.2.1]
      · rw [ht3, step2.2.2.1, step1.2.2.1]
      · rw [hasMessage, step2.2.1, step1.2.1] at hdup
        exact hdup
      · intro j hj
        rw [hasSender, hs3, step2.1, ← hasSender]
        exact step1.2.2.2.1 j hj
      · intro j hj
        rw [hasGroup, hg3, ← hasGroup]
        exact step2.2.2.2 j (step1.2.2.2.2 j hj)
      · rw [hasSender, hs3, step2.1, ← hasSender]
        rw [hasSender, step2.1, ← hasSender] at hfk_s
        exact hfk_s
      · intro g hg
        rw [hasGroup, hg3, ← hasGroup]
        exact hfk_g g hg

theorem except_bind_ok {E A B : Type} (a : A) (f : A → Except E B) :
    (Except.ok a : Except E A).bind f = f a := rfl

theorem except_bind_error {E A B : Type} (e : E) (f : A → Except E B) :
    (Except.error e : Except E A).bind f = Except.error e := rfl

/-! ## Claim C2 -/

/-- C2: any failure inside a `store_message` call — during `from_webhook`,
validation, or any step of the nested atomic unit (sender upsert, group
upsert, message insert) — leaves the database exactly as it was (full
rollback), so a message id absent before the call is still absent; and
referential integrity (no Message with a dangling Sender/Group reference) is
preserved by every outcome of `store_message`. -/
theorem store_message_rollback_and_integrity :
    ∀ (db : DB) (p : WhatsAppWebhookPayload),
      (∀ e, (store_message db p).2 = StoreOutcome.failed e →
        (store_message db p).1 = db) ∧
      (∀ e mid, (store_message db p).2 = StoreOutcome.failed e →
        hasMessage db mid = false → hasMessage (store_message db p).1 mid = false) ∧
      (refIntegrity db → refIntegrity (store_message db p).1) := by
  intro db p
  have hroll : ∀ e, (store_message db p).2 = StoreOutcome.failed e →
      (store_message db p).1 = db := by
    intro e he
    rw [store_message] at he ⊢
    cases hfw : (from_webhook p).bind validateBaseMessage with
    | error e2 => simp only [hfw]
    | ok m =>
      simp only [hfw] at he ⊢
      by_cases ht : (!truthy m.text) = true
      · rw [if_pos ht] at he
        exact StoreOutcome.noConfusion he
      · rw [if_neg ht] at he ⊢
        cases hiu : ingestUnit db m p.pushname with
        | ok db2 =>
          simp only [hiu] at he
          exact StoreOutcome.noConfusion he
        | error e3 => simp only [hiu]
  refine ⟨hroll, ?_, ?_⟩
  · intro e mid he hab
    rw [hroll e he]
    exact hab
  · intro hri
    rw [store_message]
    cases hfw : (from_webhook p).bind validateBaseMessage with
    | error e2 => simp only [hfw]; exact hri
    | ok m =>
      simp only [hfw]
      by_cases ht : (!truthy m.text) = true
      · rw [if_pos ht]
        exact hri
      · rw [if_neg ht]
        cases hiu : ingestUnit db m p.pushname with
        | error e3 => simp only [hiu]; exact hri
        | ok db2 =>
          simp only [hiu]
          obtain ⟨hmsg, _, _, hsmono, hgmono, hsm, hgm⟩ := ingestUnit_ok_shape hiu
          intro m2 hm2
          rw [hmsg, List.mem_append] at hm2
          rcases hm2 with hm2 | hm2
          · obtain ⟨hs, hg⟩ := hri m2 hm2
            exact ⟨hsmono _ hs, fun g hg2 => hgmono _ (hg g hg2)⟩
          · rw [List.mem_singleton] at hm2
            subst hm2
            exact ⟨hsm, hgm⟩

/-- C2, witness: a payload whose message id exceeds the 255-character column
limit — the sender upsert happens inside the unit, the message insert fails,
and the database comes back unchanged. -/
theorem store_message_rollback_and_integrity_witness :
    (store_message {}
      { from_ := some "123@s.whatsapp.net".toList,
        message := some { id := some (List.replicate 300 'a'),
                          text := some "hi".toList } }).1 = ({} : DB) :=
  (store_message_rollback_and_integrity {}
    { from_ := some "123@s.whatsapp.net".toList,
      message := some { id := some (List.replicate 300 'a'),
                        text := some "hi".toList } }).1
    (IngestError.dbError "message_id too long") (by decide)

/-! ## Claim C4 -/

theorem validateBaseMessage_fields {r r' : MessageRow}
    (h : validateBaseMessage r = Except.ok r') :
    r'.text = r.text ∧ r'.message_id = r.message_id ∧ r'.timestamp = r.timestamp ∧
    r'.media_url = r.media_url ∧ r'.reply_to_id = r.reply_to_id := by
  rw [validateBaseMessage] at h
  cases hp : parse_jid r.chat_jid with
  | error e => simp only [hp] at h; exact Except.noConfusion h
  | ok jid =>
    simp only [hp] at h
    by_cases hs : r.sender_jid.isEmpty
    · rw [if_pos hs] at h; exact Except.noConfusion h
    · rw [if_neg hs] at h
      cases h
      exact ⟨rfl, rfl, rfl, rfl, rfl⟩

theorem from_webhook_text {p : WhatsAppWebhookPayload} {m : MessageRow}
    (h : from_webhook p = Except.ok m) : m.text = extract_message_text p := by
  rw [from_webhook] at h
  cases hpm : p.message with
  | none => simp only [hpm] at h; exact Except.noConfusion h
  | some m0 =>
    simp only [hpm] at h
    cases hid : m0.id with
    | none => simp only [hid] at h; exact Except.noConfusion h
    | some mid =>
      simp only [hid] at h
      by_cases hmid : mid.isEmpty
      · rw [if_pos hmid] at h; exact Except.noConfusion h
      · rw [if_neg hmid] at h
        cases hfr : p.from_ with
        | none => simp only [hfr] at h; exact Except.noConfusion h
        | some fr =>
          simp only [hfr] at h
          by_cases hfe : fr.isEmpty
          · rw [if_pos hfe] at h; exact Except.noConfusion h
          · rw [if_neg hfe] at h
            cases hsc : (if containsSeq SEP_IN fr then
                match pySplitSeq SEP_IN fr with
                | [a, b] => Except.ok (a, b)
                | _ => Except.error IngestError.valueError
              else Except.ok (fr, fr) : Except IngestError (PyStr × PyStr)) with
            | error e => simp only [hsc] at h; exact Except.noConfusion h
            | ok pr =>
              obtain ⟨sr, cr⟩ := pr
              simp only [hsc] at h
              cases hv1 : validateBaseMessage
                  { message_id := mid, timestamp := p.timestamp,
                    text := extract_message_text p, media_url := extract_media_url p,
                    chat_jid := cr, sender_jid := sr,
                    group_jid := none, reply_to_id := m0.replied_id } with
              | error e => simp only [hv1] at h; exact Except.noConfusion h
              | ok base =>
                simp only [hv1] at h
                have h1 := (validateBaseMessage_fields hv1).1
                have h2 := (validateBaseMessage_fields h).1
                rw [h2, h1]

/-- C4, counterexample: ingesting a payload with no message text does NOT
persist a Message row — `store_message` returns it unstored (the database
stays empty), refuting "the Message row is still persisted to the store". -/
theorem store_message_textless_not_persisted :
    (store_message {}
      { from_ := some "123@s.whatsapp.net".toList,
        message := some { id := some "m1".toList } }).1.messages = [] ∧
    (store_message {}
      { from_ := some "123@s.whatsapp.net".toList,
        message := some { id := some "m1".toList } }).2 =
      StoreOutcome.skippedNoText
        { message_id := "m1".toList, chat_jid := "123@s.whatsapp.net".toList,
          sender_jid := "123@s.whatsapp.net".toList } := by decide

/-- C4 (amended): a payload from which no message text can be extracted still
yields a constructed Message, but `store_message` returns it WITHOUT
persisting anything (the database is unchanged and no Message row is
written), and such messages are skipped by the intent router (the
message-handling loop routes only messages with truthy text). -/
theorem store_message_skips_textless :
    ∀ (db : DB) (p : WhatsAppWebhookPayload) (m : MessageRow),
      (from_webhook p).bind validateBaseMessage = Except.ok m →
      (m.text = extract_message_text p ∧
       (extract_message_text p = none →
         store_message db p = (db, StoreOutcome.skippedNoText m) ∧
         handlerRoutesMessage (store_message db p).2 = false)) := by
  intro db p m h
  have htext : m.text = extract_message_text p := by
    cases hfw : from_webhook p with
    | error e => rw [hfw, except_bind_error] at h; exact Except.noConfusion h
    | ok m0 =>
      rw [hfw, except_bind_ok] at h
      rw [(validateBaseMessage_fields h).1, from_webhook_text hfw]
  refine ⟨htext, ?_⟩
  intro hnone
  have hmt : m.text = none := htext.trans hnone
  have htr : truthy m.text = false := by rw [hmt]; rfl
  have hsm : store_message db p = (db, StoreOutcome.skippedNoText m) := by
    rw [store_message]
    simp only [h, htr]
    rfl
  refine ⟨hsm, ?_⟩
  rw [hsm]
  simp only [handlerRoutesMessage, htr]

/-- C4, witness: the amended statement applied to the concrete textless
payload of the counterexample. -/
theorem store_message_skips_textless_witness :
    store_message {}
      { from_ := some "123@s.whatsapp.net".toList,
        message := some { id := some "m1".toList } } =
      ({}, StoreOutcome.skippedNoText
        { message_id := "m1".toList, chat_jid := "123@s.whatsapp.net".toList,
          sender_jid := "123@s.whatsapp.net".toList }) :=
  ((store_message_skips_textless {}
    { from_ := some "123@s.whatsapp.net".toList,
      message := some { id := some "m1".toList } }
    { message_id := "m1".toList, chat_jid := "123@s.whatsapp.net".toList,
      sender_jid := "123@s.whatsapp.net".toList }
    (by decide)).2 (by decide)).1

/-! ## Claim C3 : lemmas -/

theorem isEmpty_false_of_ne {l : PyStr} (h : l ≠ []) : l.isEmpty = false := by
  cases l with
  | nil => exact absurd rfl h
  | cons x xs => rfl

theorem parse_ok_ne_nil {s : PyStr} {j : JID} (h : parse_jid s = Except.ok j) :
    s ≠ [] := by
  intro hs
  subst hs
  rw [(by decide : parse_jid ([] : PyStr) =
    Except.error "failed to parse JID: missing separator")] at h
  exact Except.noConfusion h

theorem append_ne_nil_left {u v : PyStr} (h : u ≠ []) : u ++ v ≠ [] := by
  cases u with
  | nil => exact absurd rfl h
  | cons x xs => simp

/-- A message row whose chat is the canonical `u@srv`, whose sender is a
non-empty `normalize_jid` fixed point, and whose `group_jid` matches the
chat's group status, is a fixed point of the `BaseMessage` validators. -/
theorem validateBaseMessage_fixed {row : MessageRow} {u srv : PyStr}
    (hu : u ≠ []) (hau : '@' ∉ u) (has : '@' ∉ srv)
    (hc : ':' ∈ u → srv ≠ DefaultUserServer)
    (hchat : row.chat_jid = u ++ '@' :: srv)
    (hs1 : row.sender_jid ≠ [])
    (hs2 : normalize_jid row.sender_jid = row.sender_jid)
    (hg : if srv = GroupServer then row.group_jid = some (u ++ '@' :: srv)
          else (row.group_jid = none ∨
            ∃ g, row.group_jid = some g ∧ g ≠ [] ∧ normalize_jid g = g)) :
    validateBaseMessage row = Except.ok row := by
  have hna : (new_jid u srv).to_non_ad = new_jid u srv := by
    simp [JID.to_non_ad, new_jid]
  have hstr : (new_jid u srv).str = u ++ '@' :: srv := new_jid_str hu
  rw [validateBaseMessage, hchat]
  simp only [parse_canonical hau has hc]
  rw [if_neg (by simp [isEmpty_false_of_ne hs1])]
  rw [hna, hstr, hs2]
  by_cases hgs : srv = GroupServer
  · rw [if_pos hgs] at hg
    have hig : (new_jid u srv).is_group = true := by
      simp [JID.is_group, new_jid, hgs]
    rw [if_pos hig]
    show Except.ok { row with
        chat_jid := u ++ '@' :: srv,
        group_jid := if (u ++ '@' :: srv).isEmpty = true then none
                     else some (normalize_jid (u ++ '@' :: srv)) } = Except.ok row
    rw [if_neg (by simp [isEmpty_false_of_ne (append_ne_nil_left hu)])]
    rw [normalize_jid_canonical hu hau has hc, ← hg, ← hchat]
  · have hig : ¬ (new_jid u srv).is_group = true := by
      simp [JID.is_group, new_jid, hgs]
    rw [if_neg hig]
    rw [if_neg hgs] at hg
    rcases hg with hg | ⟨g, hg, hgne, hgn⟩
    · rw [hg, ← hchat]
      show Except.ok { row with group_jid := none } = Except.ok row
      rw [← hg]
    · rw [hg, ← hchat]
      show Except.ok { row with
          group_jid := if g.isEmpty = true then none
                       else some (normalize_jid g) } = Except.ok row
      rw [if_neg (by simp [isEmpty_false_of_ne hgne])]
      rw [hgn, ← hg]

/-- Success equation for the ensure-sender upsert. -/
theorem upsertSenderRow_success {db : DB} {jid : PyStr} {pn : Option PyStr}
    (h0 : jid ≠ []) (h1 : ¬ VARCHAR_MAX < (normalize_jid jid).length)
    (h2 : optStrTooLong pn = false) :
    upsertSenderRow db jid pn = Except.ok { db with
      senders := execUpsertBy SenderRow.jid
        { jid := normalize_jid jid, push_name := pn } db.senders } := by
  simp only [upsertSenderRow]
  rw [if_neg (by simp [isEmpty_false_of_ne h0]), if_neg h1, if_neg (by simp [h2])]

/-- Success equation for the ensure-group upsert. -/
theorem upsertGroupRow_success {db : DB} {gjid : PyStr}
    (h0 : gjid ≠ []) (h1 : ¬ VARCHAR_MAX < (normalize_jid gjid).length) :
    upsertGroupRow db gjid = Except.ok { db with
      groups := execUpsertBy GroupRow.group_jid
        { group_jid := normalize_jid gjid } db.groups } := by
  simp only [upsertGroupRow]
  rw [if_neg (by simp [isEmpty_false_of_ne h0]), if_neg h1]

/-- Success equation for the message INSERT. -/
theorem insertMessageRow_success {db : DB} {m : MessageRow}
    (h1 : ¬ VARCHAR_MAX < m.message_id.length)
    (h2 : ¬ VARCHAR_MAX < m.chat_jid.length)
    (h3 : ¬ VARCHAR_MAX < m.sender_jid.length)
    (h4 : optStrTooLong m.group_jid = false)
    (h5 : hasMessage db m.message_id = false)
    (h6 : hasSender db m.sender_jid = true)
    (h7 : groupFkMissing db m.group_jid = false) :
    insertMessageRow db m = Except.ok { db with messages := db.messages ++ [m] } := by
  simp only [insertMessageRow]
  rw [if_neg h1, if_neg h2, if_neg h3, if_neg (by simp [h4]), if_neg (by simp [h5]),
    if_neg (by simp [h6]), if_neg (by simp [h7])]

/-- Validator round on a row whose chat is a canonical group address: the
chat is kept, the sender is normalized, and `group_jid` is (re)set to the
chat address, whatever it held before. -/
theorem validateBaseMessage_group {row : MessageRow} {g A : PyStr}
    (hg : g ≠ []) (hag : '@' ∉ g)
    (hchat : row.chat_jid = g ++ '@' :: GroupServer)
    (hsend : row.sender_jid = A) (hA : A ≠ []) :
    validateBaseMessage row = Except.ok { row with
      chat_jid := g ++ '@' :: GroupServer,
      sender_jid := normalize_jid A,
      group_jid := some (g ++ '@' :: GroupServer) } := by
  have has : '@' ∉ GroupServer := by decide
  have hc : ':' ∈ g → GroupServer ≠ DefaultUserServer := fun _ => by decide
  have hna : (new_jid g GroupServer).to_non_ad = new_jid g GroupServer := by
    simp [JID.to_non_ad, new_jid]
  have hstr : (new_jid g GroupServer).str = g ++ '@' :: GroupServer := new_jid_str hg
  rw [validateBaseMessage, hchat, hsend]
  simp only [parse_canonical hag has hc]
  rw [if_neg (by simp [isEmpty_false_of_ne hA])]
  rw [hna, hstr]
  have hig : (new_jid g GroupServer).is_group = true := by
    simp [JID.is_group, new_jid]
  rw [if_pos hig]
  show Except.ok { row with
      chat_jid := g ++ '@' :: GroupServer,
      sender_jid := normalize_jid A,
      group_jid := if (g ++ '@' :: GroupServer).isEmpty = true then none
                   else some (normalize_jid (g ++ '@' :: GroupServer)) } = _
  rw [if_neg (by simp [isEmpty_false_of_ne (append_ne_nil_left hg)])]
  rw [normalize_jid_canonical hg hag has hc]

/-- Validator round on a row whose chat is a canonical non-group address and
whose `group_jid` is unset: the chat is kept, the sender is normalized, and
`group_jid` stays `none`. -/
theorem validateBaseMessage_direct {row : MessageRow} {u srv A : PyStr}
    (hu : u ≠ []) (hau : '@' ∉ u) (has : '@' ∉ srv)
    (hc : ':' ∈ u → srv ≠ DefaultUserServer)
    (hgs : srv ≠ GroupServer)
    (hchat : row.chat_jid = u ++ '@' :: srv)
    (hgj : row.group_jid = none)
    (hsend : row.sender_jid = A) (hA : A ≠ []) :
    validateBaseMessage row = Except.ok { row with
      chat_jid := u ++ '@' :: srv,
      sender_jid := normalize_jid A,
      group_jid := none } := by
  have hna : (new_jid u srv).to_non_ad = new_jid u srv := by
    simp [JID.to_non_ad, new_jid]
  have hstr : (new_jid u srv).str = u ++ '@' :: srv := new_jid_str hu
  rw [validateBaseMessage, hchat, hsend]
  simp only [parse_canonical hau has hc]
  rw [if_neg (by simp [isEmpty_false_of_ne hA])]
  rw [hna, hstr]
  have hig : ¬ (new_jid u srv).is_group = true := by
    simp [JID.is_group, new_jid, hgs]
  rw [if_neg hig, hgj]

/-- Shape of `from_webhook` on a `"A in G"` payload whose chat part is a
canonical group address: the `" in "` split yields sender `A` and chat `G`,
and the two validator rounds settle on chat `G`, sender `A`, group `G`. -/
theorem from_webhook_sep {p : WhatsAppWebhookPayload} {m0 : WebhookMessage}
    {A g mid : PyStr}
    (hmsg : p.message = some m0) (hid : m0.id = some mid) (hmid : mid ≠ [])
    (hfrom : p.from_ = some (A ++ SEP_IN ++ (g ++ '@' :: GroupServer)))
    (hA : A ≠ []) (hAn : normalize_jid A = A)
    (hg : g ≠ []) (hag : '@' ∉ g)
    (hnoA : ∀ i, i < A.length →
      startsWithSeq SEP_IN ((A ++ SEP_IN ++ (g ++ '@' :: GroupServer)).drop i) = false)
    (hnoG : ∀ i, i < (g ++ '@' :: GroupServer).length →
      startsWithSeq SEP_IN ((g ++ '@' :: GroupServer).drop i) = false) :
    from_webhook p = Except.ok
      { message_id := mid, timestamp := p.timestamp,
        text := extract_message_text p, media_url := extract_media_url p,
        chat_jid := g ++ '@' :: GroupServer, sender_jid := A,
        group_jid := some (g ++ '@' :: GroupServer),
        reply_to_id := m0.replied_id } := by
  have hsep : SEP_IN ≠ [] := by decide
  have hfr : (A ++ SEP_IN ++ (g ++ '@' :: GroupServer)) ≠ [] :=
    append_ne_nil_left (append_ne_nil_left hA)
  rw [from_webhook]
  simp only [hmsg, hid]
  rw [if_neg (by simp [isEmpty_false_of_ne hmid])]
  simp only [hfrom]
  rw [if_neg (by simp [isEmpty_false_of_ne hfr])]
  have hsc : (if containsSeq SEP_IN (A ++ SEP_IN ++ (g ++ '@' :: GroupServer)) then
      match pySplitSeq SEP_IN (A ++ SEP_IN ++ (g ++ '@' :: GroupServer)) with
      | [a, b] => Except.ok (a, b)
      | _ => Except.error IngestError.valueError
    else Except.ok (A ++ SEP_IN ++ (g ++ '@' :: GroupServer),
                    A ++ SEP_IN ++ (g ++ '@' :: GroupServer))
      : Except IngestError (PyStr × PyStr)) =
      Except.ok (A, g ++ '@' :: GroupServer) := by
    rw [containsSeq_append_sep hsep, if_pos rfl, pySplitSeq_sep_eq hsep hnoA hnoG]
  simp only [hsc]
  have hv1 : validateBaseMessage
      { message_id := mid, timestamp := p.timestamp,
        text := extract_message_text p, media_url := extract_media_url p,
        chat_jid := g ++ '@' :: GroupServer, sender_jid := A,
        group_jid := none, reply_to_id := m0.replied_id } = Except.ok
      { message_id := mid, timestamp := p.timestamp,
        text := extract_message_text p, media_url := extract_media_url p,
        chat_jid := g ++ '@' :: GroupServer, sender_jid := A,
        group_jid := some (g ++ '@' :: GroupServer),
        reply_to_id := m0.replied_id } := by
    have h := @validateBaseMessage_group
      { message_id := mid, timestamp := p.timestamp,
        text := extract_message_text p, media_url := extract_media_url p,
        chat_jid := g ++ '@' :: GroupServer, sender_jid := A,
        group_jid := none, reply_to_id := m0.replied_id } g A hg hag rfl rfl hA
    rw [hAn] at h
    exact h
  simp only [hv1]
  have hv2 : validateBaseMessage
      { message_id := mid, timestamp := p.timestamp,
        text := extract_message_text p, media_url := extract_media_url p,
        chat_jid := g ++ '@' :: GroupServer, sender_jid := A,
        group_jid := some (g ++ '@' :: GroupServer),
        reply_to_id := m0.replied_id } = Except.ok
      { message_id := mid, timestamp := p.timestamp,
        text := extract_message_text p, media_url := extract_media_url p,
        chat_jid := g ++ '@' :: GroupServer, sender_jid := A,
        group_jid := some (g ++ '@' :: GroupServer),
        reply_to_id := m0.replied_id } := by
    have h := @validateBaseMessage_group
      { message_id := mid, timestamp := p.timestamp,
        text := extract_message_text p, media_url := extract_media_url p,
        chat_jid := g ++ '@' :: GroupServer, sender_jid := A,
        group_jid := some (g ++ '@' :: GroupServer),
        reply_to_id := m0.replied_id } g A hg hag rfl rfl hA
    rw [hAn] at h
    exact h
  exact hv2

/-- Shape of `from_webhook` on a separator-free canonical address: sender
and chat are the same address, and `group_jid` is set only for a group
chat. -/
theorem from_webhook_direct {p : WhatsAppWebhookPayload} {m0 : WebhookMessage}
    {u srv mid : PyStr}
    (hmsg : p.message = some m0) (hid : m0.id = some mid) (hmid : mid ≠ [])
    (hfrom : p.from_ = some (u ++ '@' :: srv))
    (hu : u ≠ []) (hau : '@' ∉ u) (has : '@' ∉ srv)
    (hc : ':' ∈ u → srv ≠ DefaultUserServer)
    (hnosep : containsSeq SEP_IN (u ++ '@' :: srv) = false) :
    from_webhook p = Except.ok
      { message_id := mid, timestamp := p.timestamp,
        text := extract_message_text p, media_url := extract_media_url p,
        chat_jid := u ++ '@' :: srv, sender_jid := u ++ '@' :: srv,
        group_jid := if srv = GroupServer then some (u ++ '@' :: srv) else none,
        reply_to_id := m0.replied_id } := by
  have hfr : (u ++ '@' :: srv) ≠ [] := append_ne_nil_left hu
  have hnrm : normalize_jid (u ++ '@' :: srv) = u ++ '@' :: srv :=
    normalize_jid_canonical hu hau has hc
  rw [from_webhook]
  simp only [hmsg, hid]
  rw [if_neg (by simp [isEmpty_false_of_ne hmid])]
  simp only [hfrom]
  rw [if_neg (by simp [isEmpty_false_of_ne hfr])]
  have hsc : (if containsSeq SEP_IN (u ++ '@' :: srv) then
      match pySplitSeq SEP_IN (u ++ '@' :: srv) with
      | [a, b] => Except.ok (a, b)
      | _ => Except.error IngestError.valueError
    else Except.ok (u ++ '@' :: srv, u ++ '@' :: srv)
      : Except IngestError (PyStr × PyStr)) =
      Except.ok (u ++ '@' :: srv, u ++ '@' :: srv) := by
    rw [hnosep, if_neg (by simp)]
  simp only [hsc]
  by_cases hgs : srv = GroupServer
  · subst hgs
    rw [if_pos rfl]
    have hv1 : validateBaseMessage
        { message_id := mid, timestamp := p.timestamp,
          text := extract_message_text p, media_url := extract_media_url p,
          chat_jid := u ++ '@' :: GroupServer, sender_jid := u ++ '@' :: GroupServer,
          group_jid := none, reply_to_id := m0.replied_id } = Except.ok
        { message_id := mid, timestamp := p.timestamp,
          text := extract_message_text p, media_url := extract_media_url p,
          chat_jid := u ++ '@' :: GroupServer, sender_jid := u ++ '@' :: GroupServer,
          group_jid := some (u ++ '@' :: GroupServer),
          reply_to_id := m0.replied_id } := by
      have h := @validateBaseMessage_group
        { message_id := mid, timestamp := p.timestamp,
          text := extract_message_text p, media_url := extract_media_url p,
          chat_jid := u ++ '@' :: GroupServer, sender_jid := u ++ '@' :: GroupServer,
          group_jid := none, reply_to_id := m0.replied_id } u (u ++ '@' :: GroupServer)
        hu hau rfl rfl hfr
      rw [hnrm] at h
      exact h
    simp only [hv1]
    have hv2 : validateBaseMessage
        { message_id := mid, timestamp := p.timestamp,
          text := extract_message_text p, media_url := extract_media_url p,
          chat_jid := u ++ '@' :: GroupServer, sender_jid := u ++ '@' :: GroupServer,
          group_jid := some (u ++ '@' :: GroupServer),
          reply_to_id := m0.replied_id } = Except.ok
        { message_id := mid, timestamp := p.timestamp,
          text := extract_message_text p, media_url := extract_media_url p,
          chat_jid := u ++ '@' :: GroupServer, sender_jid := u ++ '@' :: GroupServer,
          group_jid := some (u ++ '@' :: GroupServer),
          reply_to_id := m0.replied_id } := by
      have h := @validateBaseMessage_group
        { message_id := mid, timestamp := p.timestamp,
          text := extract_message_text p, media_url := extract_media_url p,
          chat_jid := u ++ '@' :: GroupServer, sender_jid := u ++ '@' :: GroupServer,
          group_jid := some (u ++ '@' :: GroupServer),
          reply_to_id := m0.replied_id } u (u ++ '@' :: GroupServer)
        hu hau rfl rfl hfr
      rw [hnrm] at h
      exact h
    exact hv2
  · rw [if_neg hgs]
    have hv1 : validateBaseMessage
        { message_id := mid, timestamp := p.timestamp,
          text := extract_message_text p, media_url := extract_media_url p,
          chat_jid := u ++ '@' :: srv, sender_jid := u ++ '@' :: srv,
          group_jid := none, reply_to_id := m0.replied_id } = Except.ok
        { message_id := mid, timestamp := p.timestamp,
          text := extract_message_text p, media_url := extract_media_url p,
          chat_jid := u ++ '@' :: srv, sender_jid := u ++ '@' :: srv,
          group_jid := none, reply_to_id := m0.replied_id } := by
      have h := @validateBaseMessage_direct
        { message_id := mid, timestamp := p.timestamp,
          text := extract_message_text p, media_url := extract_media_url p,
          chat_jid := u ++ '@' :: srv, sender_jid := u ++ '@' :: srv,
          group_jid := none, reply_to_id := m0.replied_id } u srv (u ++ '@' :: srv)
        hu hau has hc hgs rfl rfl rfl hfr
      rw [hnrm] at h
      exact h
    simp only [hv1]

/-- Success of the nested atomic unit under the column and key constraints:
a non-empty normalize-stable sender, length-bounded columns, a fresh message
id, and a `group_jid` that is either unset or non-empty and
normalize-stable. -/
theorem ingestUnit_success {db : DB} {m : MessageRow} {pn : Option PyStr}
    (hs0 : m.sender_jid ≠ [])
    (hsn : normalize_jid m.sender_jid = m.sender_jid)
    (hsl : ¬ VARCHAR_MAX < m.sender_jid.length)
    (hpn : optStrTooLong pn = false)
    (hgj : m.group_jid = none ∨
      ∃ g, m.group_jid = some g ∧ g ≠ [] ∧ normalize_jid g = g ∧
        ¬ VARCHAR_MAX < g.length)
    (hml : ¬ VARCHAR_MAX < m.message_id.length)
    (hcl : ¬ VARCHAR_MAX < m.chat_jid.length)
    (hdup : hasMessage db m.message_id = false) :
    ∃ db2, ingestUnit db m pn = Except.ok db2 := by
  have step1 : ∃ db1, (if hasSender db m.sender_jid then Except.ok db
      else upsertSenderRow db m.sender_jid pn) = Except.ok db1 ∧
      hasSender db1 m.sender_jid = true ∧
      db1.messages = db.messages := by
    by_cases hhs : hasSender db m.sender_jid = true
    · exact ⟨db, by rw [if_pos hhs], hhs, rfl⟩
    · have hup : upsertSenderRow db m.sender_jid pn = Except.ok { db with
          senders := execUpsertBy SenderRow.jid
            { jid := normalize_jid m.sender_jid, push_name := pn } db.senders } :=
        upsertSenderRow_success hs0 (by rw [hsn]; exact hsl) hpn
      refine ⟨{ db with
          senders := execUpsertBy SenderRow.jid
            { jid := normalize_jid m.sender_jid, push_name := pn } db.senders },
        ?_, ?_, ?_⟩
      · rw [if_neg hhs]
        exact hup
      · have hh := (hasSender_of_upsertSenderRow hup).2
        nth_rewrite 2 [hsn] at hh
        exact hh
      · rfl
  obtain ⟨db1, h1, hsend1, hmsgs1⟩ := step1
  have step2 : ∃ db2, (match m.group_jid with
      | some g =>
        if g.isEmpty then Except.ok db1
        else if hasGroup db1 g then Except.ok db1
        else upsertGroupRow db1 g
      | none => Except.ok db1) = Except.ok db2 ∧
      hasSender db2 m.sender_jid = true ∧
      (∀ g, m.group_jid = some g → hasGroup db2 g = true) ∧
      db2.messages = db1.messages := by
    rcases hgj with hnone | ⟨g, hsome, hgne, hgn, hgl⟩
    · refine ⟨db1, ?_, hsend1, ?_, rfl⟩
      · simp only [hnone]
      · intro g hg
        rw [hnone] at hg
        exact Option.noConfusion hg
    · by_cases hhg : hasGroup db1 g = true
      · refine ⟨db1, ?_, hsend1, ?_, rfl⟩
        · simp only [hsome]
          rw [if_neg (by simp [isEmpty_false_of_ne hgne]), if_pos hhg]
        · intro g' hg'
          rw [hsome] at hg'
          cases hg'
          exact hhg
      · have hup : upsertGroupRow db1 g = Except.ok { db1 with
            groups := execUpsertBy GroupRow.group_jid
              { group_jid := normalize_jid g } db1.groups } :=
          upsertGroupRow_success hgne (by rw [hgn]; exact hgl)
        refine ⟨{ db1 with
            groups := execUpsertBy GroupRow.group_jid
              { group_jid := normalize_jid g } db1.groups },
          ?_, ?_, ?_, ?_⟩
        · simp only [hsome]
          rw [if_neg (by simp [isEmpty_false_of_ne hgne]), if_neg hhg]
          exact hup
        · exact hsend1
        · intro g' hg'
          rw [hsome] at hg'
          cases hg'
          have hh := (hasGroup_of_upsertGroupRow hup).2
          nth_rewrite 2 [hgn] at hh
          exact hh
        · rfl
  obtain ⟨db2, h2, hsend2, hgrp2, hmsgs2⟩ := step2
  have hins : insertMessageRow db2 m =
      Except.ok { db2 with messages := db2.messages ++ [m] } := by
    refine insertMessageRow_success hml hcl hsl ?_ ?_ hsend2 ?_
    · rcases hgj with hnone | ⟨g, hsome, _, _, hgl⟩
      · simp only [hnone, optStrTooLong]
      · rw [hsome]
        simp only [optStrTooLong]
        exact decide_eq_false hgl
    · rw [hasMessage, hmsgs2, hmsgs1]
      exact hdup
    · rcases hgj with hnone | ⟨g, hsome, _, _, _⟩
      · simp only [hnone, groupFkMissing]
      · rw [hsome]
        simp only [groupFkMissing]
        simp [hgrp2 g hsome]
  refine ⟨{ db2 with messages := db2.messages ++ [m] }, ?_⟩
  rw [ingestUnit]
  simp only [h1]
  simp only [h2]
  exact hins

/-- C3: ingesting a payload whose raw `from` field is `"A in G"` with `G` a
canonical group address (`g@g.us`), message id `mid` and truthy text `txt`
stores exactly one new Message row `{message_id := mid, chat_jid := G,
sender_jid := A, group_jid := some G, text := txt}` on top of the previous
messages, together with a Sender row keyed by (normalize-stable) `A` and a
Group row keyed by `G`; and when the raw `from` field has no `" in "`
separator, the built message has sender and chat equal to that same address,
with `group_jid` set exactly when the chat address is a group address. -/
theorem ingest_sender_chat_splitting :
    (∀ (db : DB) (p : WhatsAppWebhookPayload) (m0 : WebhookMessage)
       (A g mid txt : PyStr),
      p.message = some m0 → m0.id = some mid → mid ≠ [] →
      m0.text = some txt → txt ≠ [] →
      p.from_ = some (A ++ SEP_IN ++ (g ++ '@' :: GroupServer)) →
      A ≠ [] → normalize_jid A = A → ¬ VARCHAR_MAX < A.length →
      g ≠ [] → '@' ∉ g → ¬ VARCHAR_MAX < (g ++ '@' :: GroupServer).length →
      (∀ i, i < A.length →
        startsWithSeq SEP_IN
          ((A ++ SEP_IN ++ (g ++ '@' :: GroupServer)).drop i) = false) →
      (∀ i, i < (g ++ '@' :: GroupServer).length →
        startsWithSeq SEP_IN ((g ++ '@' :: GroupServer).drop i) = false) →
      ¬ VARCHAR_MAX < mid.length →
      optStrTooLong p.pushname = false →
      hasMessage db mid = false →
      ∃ db2,
        store_message db p = (db2, StoreOutcome.stored
          { message_id := mid, timestamp := p.timestamp,
            text := some txt, media_url := extract_media_url p,
            chat_jid := g ++ '@' :: GroupServer, sender_jid := A,
            group_jid := some (g ++ '@' :: GroupServer),
            reply_to_id := m0.replied_id }) ∧
        hasSender db2 A = true ∧
        hasGroup db2 (g ++ '@' :: GroupServer) = true ∧
        db2.messages = db.messages ++
          [{ message_id := mid, timestamp := p.timestamp,
             text := some txt, media_url := extract_media_url p,
             chat_jid := g ++ '@' :: GroupServer, sender_jid := A,
             group_jid := some (g ++ '@' :: GroupServer),
             reply_to_id := m0.replied_id }]) ∧
    (∀ (p : WhatsAppWebhookPayload) (m0 : WebhookMessage) (u srv mid : PyStr),
      p.message = some m0 → m0.id = some mid → mid ≠ [] →
      p.from_ = some (u ++ '@' :: srv) →
      u ≠ [] → '@' ∉ u → '@' ∉ srv → (':' ∈ u → srv ≠ DefaultUserServer) →
      containsSeq SEP_IN (u ++ '@' :: srv) = false →
      from_webhook p = Except.ok
        { message_id := mid, timestamp := p.timestamp,
          text := extract_message_text p, media_url := extract_media_url p,
          chat_jid := u ++ '@' :: srv, sender_jid := u ++ '@' :: srv,
          group_jid := if srv = GroupServer then some (u ++ '@' :: srv) else none,
          reply_to_id := m0.replied_id }) := by
  constructor
  · intro db p m0 A g mid txt hmsg hid hmid htxt htne hfrom hA hAn hAl hg hag hGl
      hnoA hnoG hmidl hpn hdup
    have hext : extract_message_text p = some txt := by
      have htr : truthy (some txt) = true := by
        simp [truthy, isEmpty_false_of_ne htne]
      rw [extract_message_text]
      simp only [hmsg, htxt]
      rw [if_pos htr]
    have hGn : normalize_jid (g ++ '@' :: GroupServer) = g ++ '@' :: GroupServer :=
      normalize_jid_canonical hg hag (by decide) (fun _ => by decide)
    have hfw := from_webhook_sep hmsg hid hmid hfrom hA hAn hg hag hnoA hnoG
    rw [hext] at hfw
    have hval : validateBaseMessage
        { message_id := mid, timestamp := p.timestamp,
          text := some txt, media_url := extract_media_url p,
          chat_jid := g ++ '@' :: GroupServer, sender_jid := A,
          group_jid := some (g ++ '@' :: GroupServer),
          reply_to_id := m0.replied_id } = Except.ok
        { message_id := mid, timestamp := p.timestamp,
          text := some txt, media_url := extract_media_url p,
          chat_jid := g ++ '@' :: GroupServer, sender_jid := A,
          group_jid := some (g ++ '@' :: GroupServer),
          reply_to_id := m0.replied_id } := by
      have h := @validateBaseMessage_group
        { message_id := mid, timestamp := p.timestamp,
          text := some txt, media_url := extract_media_url p,
          chat_jid := g ++ '@' :: GroupServer, sender_jid := A,
          group_jid := some (g ++ '@' :: GroupServer),
          reply_to_id := m0.replied_id } g A hg hag rfl rfl hA
      rw [hAn] at h
      exact h
    have hfwb : (from_webhook p).bind validateBaseMessage = Except.ok
        { message_id := mid, timestamp := p.timestamp,
          text := some txt, media_url := extract_media_url p,
          chat_jid := g ++ '@' :: GroupServer, sender_jid := A,
          group_jid := some (g ++ '@' :: GroupServer),
          reply_to_id := m0.replied_id } := by
      rw [hfw, except_bind_ok]
      exact hval
    obtain ⟨db2, hing⟩ := @ingestUnit_success db
      { message_id := mid, timestamp := p.timestamp,
        text := some txt, media_url := extract_media_url p,
        chat_jid := g ++ '@' :: GroupServer, sender_jid := A,
        group_jid := some (g ++ '@' :: GroupServer),
        reply_to_id := m0.replied_id } p.pushname
      hA hAn hAl hpn
      (Or.inr ⟨g ++ '@' :: GroupServer, rfl, append_ne_nil_left hg, hGn, hGl⟩)
      hmidl hGl hdup
    obtain ⟨hmsgs, _, _, _, _, hsend2, hgrp2⟩ := ingestUnit_ok_shape hing
    refine ⟨db2, ?_, hsend2, hgrp2 (g ++ '@' :: GroupServer) rfl, hmsgs⟩
    rw [store_message]
    simp only [hfwb]
    rw [if_neg (by simp [truthy, isEmpty_false_of_ne htne])]
    simp only [hing]
  · intro p m0 u srv mid hmsg hid hmid hfrom hu hau has hc hnosep
    exact from_webhook_direct hmsg hid hmid hfrom hu hau has hc hnosep

/-- C3, witness: the concrete payload `"123@s.whatsapp.net in 456-789@g.us"`
with id `m1` and text `hi` on an empty store, and the separator-free payload
`"123@s.whatsapp.net"` with id `m2` and text `yo`. -/
theorem ingest_sender_chat_splitting_witness :
    (∃ db2,
      store_message {}
        { from_ := some "123@s.whatsapp.net in 456-789@g.us".toList,
          pushname := some "John".toList,
          message := some { id := some "m1".toList, text := some "hi".toList } } =
        (db2, StoreOutcome.stored
          { message_id := "m1".toList, text := some "hi".toList,
            media_url := none,
            chat_jid := "456-789@g.us".toList,
            sender_jid := "123@s.whatsapp.net".toList,
            group_jid := some "456-789@g.us".toList }) ∧
      hasSender db2 "123@s.whatsapp.net".toList = true ∧
      hasGroup db2 "456-789@g.us".toList = true ∧
      db2.messages =
        [{ message_id := "m1".toList, text := some "hi".toList,
           media_url := none,
           chat_jid := "456-789@g.us".toList,
           sender_jid := "123@s.whatsapp.net".toList,
           group_jid := some "456-789@g.us".toList }]) ∧
    from_webhook
      { from_ := some "123@s.whatsapp.net".toList,
        message := some { id := some "m2".toList, text := some "yo".toList } } =
      Except.ok
        { message_id := "m2".toList, text := some "yo".toList,
          media_url := none,
          chat_jid := "123@s.whatsapp.net".toList,
          sender_jid := "123@s.whatsapp.net".toList,
          group_jid := none } := by
  constructor
  · exact ingest_sender_chat_splitting.1 {}
      { from_ := some "123@s.whatsapp.net in 456-789@g.us".toList,
        pushname := some "John".toList,
        message := some { id := some "m1".toList, text := some "hi".toList } }
      { id := some "m1".toList, text := some "hi".toList }
      "123@s.whatsapp.net".toList "456-789".toList "m1".toList "hi".toList
      rfl rfl (by decide) rfl (by decide) (by decide) (by decide) (by decide)
      (by decide) (by decide) (by decide) (by decide) (by decide) (by decide)
      (by decide) (by decide) (by decide)
  · exact ingest_sender_chat_splitting.2
      { from_ := some "123@s.whatsapp.net".toList,
        message := some { id := some "m2".toList, text := some "yo".toList } }
      { id := some "m2".toList, text := some "yo".toList }
      "123".toList "s.whatsapp.net".toList "m2".toList
      rfl rfl (by decide) (by decide) (by decide) (by decide) (by decide)
      (by decide) (by decide)

end WaLLM
